import Mathlib

/-!
dsmr_exporter: telegram framing, field extraction and metric collection

A shallow embedding of `main.go`.

* Go strings are embedded as Lean `String`s, i.e. sequences of Unicode code
  points (valid UTF-8); `regexp` and `strings.HasPrefix` are read on the
  underlying character list.
* A `float64` is represented by the exact rational number it denotes.
  `readValue` only ever yields finite values, so no infinities or NaNs occur.
* The two goroutines of `Read` are embedded as the function that maps the
  sequence of lines received from the `lines` channel, in arrival order, to
  the entry sent on the `entries` channel (if any).
-/

namespace Dsmr

/-! ## regexp: the constructs used by `reval` -/

/-- One element of a concatenation pattern: a single character of a class, a
greedy one-or-more repetition of a class, or a capture-group boundary. -/
inductive Node where
  | one (c : Char → Bool)
  | plus (c : Char → Bool)
  | mark

/-- The class `.`: any character except a line feed (flag `s` is not set). -/
def anyNotNL (c : Char) : Bool := c != '\n'

/-- The literal `\(`. -/
def lparen (c : Char) : Bool := c == '('

/-- The class `[0-9.]`. -/
def digitDot (c : Char) : Bool := c.isDigit || c == '.'

/-- The negated class `[^0-9.)]`; a negated class also matches a line feed. -/
def notDigitDotParen (c : Char) : Bool := !(c.isDigit || c == '.' || c == ')')

/-- Greedy repetition with backtracking: consume as many characters of class
`c` as possible and give back one at a time until the continuation `k`
succeeds. -/
def star (c : Char → Bool) (k : List Char → Option (List (List Char))) :
    List Char → Option (List (List Char))
  | [] => k []
  | x :: xs => if c x then (star c k xs <|> k (x :: xs)) else k (x :: xs)

/-- Backtracking match of a concatenation anchored at the head of the input.
On success the result lists the input remaining at every `mark`, in pattern
order, followed by the input remaining after the whole match. -/
def matchSeq : List Node → List Char → Option (List (List Char))
  | [], s => some [s]
  | .one c :: ps, s =>
    match s with
    | [] => none
    | x :: xs => if c x then matchSeq ps xs else none
  | .plus c :: ps, s =>
    match s with
    | [] => none
    | x :: xs => if c x then star c (matchSeq ps) xs else none
  | .mark :: ps, s => (matchSeq ps s).map (s :: ·)

/-- Leftmost-first search: the match starts as early as possible in the
input, and at that start it is the one the backtracking search finds first.
Returns the start suffix and the positions recorded by `matchSeq`. -/
def search (re : List Node) : List Char → Option (List Char × List (List Char))
  | [] => (matchSeq re []).map (fun r => ([], r))
  | x :: xs =>
    match matchSeq re (x :: xs) with
    | some r => some (x :: xs, r)
    | none => search re xs

/-- The text between two recorded positions `a` and `b` (`b` a suffix of `a`). -/
def between (a b : List Char) : List Char := a.take (a.length - b.length)

/-- Embedding of `(*Regexp).FindStringSubmatch` for a pattern with one capture
group: `[whole match, group 1]`, or the empty slice when nothing matches. -/
def FindStringSubmatch (re : List Node) (s : String) : List String :=
  match search re s.data with
  | some (start, [gopen, gclose, stop]) =>
    [String.mk (between start stop), String.mk (between gopen gclose)]
  | _ => []

/-- Embedding of ``var reval = regexp.MustCompile(`.+\(([0-9.]+)[^0-9.)]+`)``. -/
def reval : List Node :=
  [.plus anyNotNL, .one lparen, .mark, .plus digitDot, .mark, .plus notDigitDotParen]

/-! ## strconv.ParseFloat on the tokens `reval` can capture -/

/-- The errors of `strconv.ParseFloat`. -/
inductive NumError where
  | ErrSyntax
  | ErrRange
  deriving DecidableEq, Repr

/-- Scanner state of the decimal reader: the digits read so far as a natural
number, how many of them came after the dot, and the two flags. -/
structure Scan where
  mant : ℕ
  frac : ℕ
  sawdot : Bool
  sawdigits : Bool
  deriving DecidableEq, Repr

/-- The scanning loop of `strconv` for a decimal mantissa: digits with at most
one dot; a second dot or any other character stops the scan before the end of
the input, which `ParseFloat` reports as a syntax error, as it does when no
digit was seen. The digits are kept exactly. -/
def readFloat : List Char → Scan → Option Scan
  | [], st => if st.sawdigits then some st else none
  | c :: cs, st =>
    if c == '.' then
      if st.sawdot then none else readFloat cs { st with sawdot := true }
    else if c.isDigit then
      readFloat cs { st with
        sawdigits := true
        mant := st.mant * 10 + (c.toNat - '0'.toNat)
        frac := if st.sawdot then st.frac + 1 else st.frac }
    else none

/-- Whether `a / b ≥ 2 ^ e`, for `b > 0`. -/
def geTwoPow (a b : ℕ) (e : ℤ) : Bool :=
  if 0 ≤ e then decide (b * 2 ^ e.toNat ≤ a) else decide (b ≤ a * 2 ^ (-e).toNat)

/-- Auxiliary for `log2`, with the argument itself as a bound on the depth. -/
def log2Aux : ℕ → ℕ → ℕ
  | 0, _ => 0
  | fuel + 1, n => if 2 ≤ n then log2Aux fuel (n / 2) + 1 else 0

/-- The binary logarithm `⌊log₂ n⌋` of a positive natural number. -/
def log2 (n : ℕ) : ℕ := log2Aux n n

/-- The binary exponent `⌊log₂ (a / b)⌋`, for `a, b > 0`. -/
def binExp (a b : ℕ) : ℤ :=
  let e0 : ℤ := (log2 a : ℤ) - (log2 b : ℤ)
  if geTwoPow a b e0 then e0 else e0 - 1

/-- Round `a / b` to an integer, ties to even. -/
def roundHalfEven (a b : ℕ) : ℕ :=
  let n := a / b
  let r := a % b
  if 2 * r < b then n else if b < 2 * r then n + 1 else n + n % 2

/-- IEEE 754 binary64 round-to-nearest-even of a non-negative rational `q`,
written `a / b` below: the rounded value, or `none` when the result is not
finite (`q` is at least half an ulp above the largest float64). With `p` the
exponent of the unit in the last place, the result is the multiple of `2 ^ p`
nearest to `q`, ties to the even multiple. Values below `2 ^ (-1022)` are
rounded on the subnormal grid, down to zero. -/
def nearestFloat64 (q : ℚ) : Option ℚ :=
  let a := q.num.toNat
  let b := q.den
  if a = 0 then some 0 else
  let p : ℤ := max (binExp a b) (-1022) - 52
  let n := if 0 ≤ p then roundHalfEven a (b * 2 ^ p.toNat)
           else roundHalfEven (a * 2 ^ (-p).toNat) b
  let v : ℚ := if 0 ≤ p then (n * 2 ^ p.toNat : ℕ) else (n : ℚ) / (2 ^ (-p).toNat : ℕ)
  if v < ((2 ^ 1024 : ℕ) : ℚ) then some v else none

/-- Embedding of `strconv.ParseFloat(s, 64)` on the inputs `readValue` passes
to it, which consist of decimal digits and dots only (see
`capture_digitDot`): the nearest float64 to the decimal value read, a syntax
error for a malformed token, a range error when the value overflows. Signs,
exponents, hexadecimal mantissas, underscores and the names of infinities and
NaN cannot occur in a captured token and are not part of this embedding. -/
def ParseFloat (s : String) : Except NumError ℚ :=
  match readFloat s.data ⟨0, 0, false, false⟩ with
  | none => .error .ErrSyntax
  | some st =>
    match nearestFloat64 ((st.mant : ℚ) / ((10 ^ st.frac : ℕ) : ℚ)) with
    | none => .error .ErrRange
    | some v => .ok v

/-! ## readValue -/

/-- Embedding of `dataReader.readValue`. -/
def readValue (line : String) : ℚ :=
  let g := FindStringSubmatch reval line
  if g.length = 0 then 0
  else
    match ParseFloat (g.getD 1 "") with
    | .error _ => 0
    | .ok v => v

/-! ## parseEntry -/

/-- Embedding of `strings.HasPrefix`. -/
def HasPrefix (s pre : String) : Bool := pre.data.isPrefixOf s.data

/-- Embedding of `type Entry struct`. `Timestamp` is an abstract instant; the
zero `time.Time` is 0. -/
structure Entry where
  Timestamp : ℕ
  ElectricityLow : ℚ
  ElectricityNormal : ℚ
  Gas : ℚ
  deriving DecidableEq, Repr

/-- The body of the `for _, line := range lines` loop of `parseEntry`. -/
def parseLine (entry : Entry) (line : String) : Entry :=
  if HasPrefix line "1-0:1.8.1" then { entry with ElectricityLow := readValue line }
  else if HasPrefix line "1-0:1.8.2" then { entry with ElectricityNormal := readValue line }
  else if HasPrefix line "0-1:24.2.1" then { entry with Gas := readValue line }
  else entry

/-- Embedding of `dataReader.parseEntry`; `now` is the reading of the clock
taken by `time.Now()` after the loop. -/
def parseEntry (now : ℕ) (lines : List String) : Except String Entry :=
  let entry : Entry := ⟨0, 0, 0, 0⟩
  if lines.length = 0 then .error "Empty lines"
  else
    let entry := lines.foldl parseLine entry
    .ok { entry with Timestamp := now }

/-! ## Read: the framing loop -/

/-- The `for line := range lines` loop of the second goroutine of `Read`, with
its two variables `started` and `block`, over the lines still to be received.
The result is the entry sent on `entries`, after which the loop breaks; `none`
when the line sequence ends first. -/
def Read.loop (now : ℕ) : Bool → List String → List String → Option Entry
  | _, _, [] => none
  | started, block, line :: rest =>
    if HasPrefix line "/ISK5" then Read.loop now true block rest
    else if started && HasPrefix line "!" then
      match parseEntry now block with
      | .ok entry => some entry
      | .error _ => Read.loop now false [] rest
    else if started then Read.loop now started (block ++ [line]) rest
    else Read.loop now started block rest

/-- Embedding of `dataReader.Read` on an opened port: `lines` is the sequence
of trimmed lines the first goroutine delivers, the result is what the returned
channel carries before it is closed. `parseEntry` reads the clock only when it
succeeds, which happens at most once, so one reading `now` suffices. -/
def Read (now : ℕ) (lines : List String) : Option Entry :=
  Read.loop now false [] lines

/-- The name the specification uses for the framing loop. -/
def frame (now : ℕ) (lines : List String) : Option Entry := Read now lines

/-! ## Describe and Collect -/

/-- Embedding of `prometheus.Desc`, as far as `NewDesc` is given it here. -/
structure Desc where
  fqName : String
  help : String
  variableLabels : List String
  deriving DecidableEq, Repr

/-- Embedding of `prometheus.NewDesc` (no constant labels). -/
def NewDesc (fqName help : String) (variableLabels : List String) : Desc :=
  ⟨fqName, help, variableLabels⟩

/-- Embedding of `prometheus.ValueType`. -/
inductive ValueType where
  | CounterValue
  | GaugeValue
  | UntypedValue
  deriving DecidableEq, Repr

/-- A constant metric: descriptor, type, value and label values. -/
structure Metric where
  desc : Desc
  valueType : ValueType
  value : ℚ
  labelValues : List String
  deriving DecidableEq, Repr

/-- Embedding of `prometheus.MustNewConstMetric`: it panics (`none`) on a nil
descriptor and when the number of label values differs from the number of
variable labels of the descriptor. -/
def MustNewConstMetric (desc : Option Desc) (valueType : ValueType) (value : ℚ)
    (labelValues : List String) : Option Metric :=
  match desc with
  | none => none
  | some d =>
    if d.variableLabels.length = labelValues.length then
      some ⟨d, valueType, value, labelValues⟩
    else none

/-- Embedding of `type dataReader struct`: the two descriptor pointers (the
serial configuration plays no part once the port is open). -/
structure dataReader where
  electricityDesc : Option Desc
  gasDesc : Option Desc
  deriving DecidableEq, Repr

/-- The collector built in `main`: `&dataReader{Config: c}`. -/
def newDataReader : dataReader := ⟨none, none⟩

/-- Embedding of `dataReader.initDesc`. -/
def initDesc (dr : dataReader) : dataReader :=
  let electricityDesc :=
    if dr.electricityDesc = none then
      some (NewDesc "energy_electricity_total" "Electricity usage" ["type"])
    else dr.electricityDesc
  let gasDesc :=
    if dr.gasDesc = none then some (NewDesc "energy_gas_total" "Gas usage" [])
    else dr.gasDesc
  ⟨electricityDesc, gasDesc⟩

/-- Embedding of `dataReader.Describe`: the new collector state and the
descriptors sent on the channel, in order. -/
def Describe (dr : dataReader) : dataReader × List (Option Desc) :=
  let dr := if dr.electricityDesc = none ∨ dr.gasDesc = none then initDesc dr else dr
  (dr, [dr.electricityDesc, dr.gasDesc])

/-- Embedding of `dataReader.Collect` on an opened port delivering `lines`:
the new collector state and the metrics sent on the channel, in order; `none`
when a `MustNewConstMetric` panics. Receiving from the closed `entries`
channel yields the zero `Entry`. -/
def Collect (dr : dataReader) (now : ℕ) (lines : List String) :
    Option (dataReader × List Metric) :=
  let dr := if dr.electricityDesc = none ∨ dr.gasDesc = none then initDesc dr else dr
  let entry := (Read now lines).getD ⟨0, 0, 0, 0⟩
  match MustNewConstMetric dr.electricityDesc .CounterValue entry.ElectricityLow ["low"] with
  | none => none
  | some m1 =>
    match MustNewConstMetric dr.electricityDesc .CounterValue entry.ElectricityNormal
        ["normal"] with
    | none => none
    | some m2 =>
      match MustNewConstMetric dr.gasDesc .CounterValue entry.Gas [] with
      | none => none
      | some m3 => some (dr, [m1, m2, m3])

/-- The collector states the program can reach from `main` through `Describe`
and `Collect`. -/
inductive Reachable : dataReader → Prop where
  | init : Reachable newDataReader
  | describe (dr : dataReader) : Reachable dr → Reachable (Describe dr).1
  | collect (dr dr2 : dataReader) (now : ℕ) (lines : List String) (ms : List Metric) :
      Reachable dr → Collect dr now lines = some (dr2, ms) → Reachable dr2

/-! ## The framing loop as a transition, and the two goroutines of Read -/

/-- The body of the `for line := range lines` loop of `Read` as one
transition: the entry sent on `entries` (after which the loop breaks), or the
new values of `started` and `block`. -/
def Read.step (now : ℕ) (started : Bool) (block : List String) (line : String) :
    Entry ⊕ (Bool × List String) :=
  if HasPrefix line "/ISK5" then .inr (true, block)
  else if started && HasPrefix line "!" then
    match parseEntry now block with
    | .ok entry => .inl entry
    | .error _ => .inr (false, [])
  else if started then .inr (started, block ++ [line])
  else .inr (started, block)

/-- The values of `started` and `block` after the loop has consumed `lines`;
`none` when it has left the loop by `break`. -/
def Read.stateAfter (now : ℕ) : Bool → List String → List String → Option (Bool × List String)
  | started, block, [] => some (started, block)
  | started, block, line :: rest =>
    match Read.step now started block line with
    | .inl _ => none
    | .inr (s, b) => Read.stateAfter now s b rest

/-- Where the first goroutine of `Read` stands: about to evaluate
`scanner.Scan() && !stopped`, about to execute `lines <- line`, or returned
(its deferred `s.Close()` and `close(lines)` have run). -/
inductive Pump where
  | scan
  | send (line : String)
  | done
  deriving DecidableEq, Repr

/-- Where the second goroutine of `Read` stands: receiving in
`for line := range lines`, out of the loop and about to execute
`stopped = true`, or returned. -/
inductive Framer where
  | recv
  | leave
  | done
  deriving DecidableEq, Repr

/-- The state of one call of `Read` on an opened port: the trimmed lines the
scanner will still deliver (after them `Scan()` returns false: end of stream,
read error or timeout), the buffer of the channel `lines` and whether it is
closed, the two goroutines, the variables `started`, `block` and `stopped`,
the number of calls of `s.Close()` so far, and the entries sent on
`entries`. -/
structure Session where
  input : List String
  queue : List String
  linesClosed : Bool
  pump : Pump
  framer : Framer
  started : Bool
  block : List String
  stopped : Bool
  closes : ℕ
  entries : List Entry
  deriving DecidableEq, Repr

/-- The state right after `Read` has started its two goroutines. -/
def Session.init (input : List String) : Session :=
  ⟨input, [], false, .scan, .recv, false, [], false, 0, []⟩

/-- The capacity of the channel `lines`: `make(chan string, 100)`. -/
def linesCap : ℕ := 100

/-- One step of the first goroutine; `none` when it cannot move (blocked on a
full channel, or returned). -/
def pumpStep (σ : Session) : Option Session :=
  match σ.pump with
  | .scan =>
    match σ.input with
    | [] => some { σ with pump := .done, closes := σ.closes + 1, linesClosed := true }
    | x :: rest =>
      if σ.stopped then
        some { σ with input := rest, pump := .done, closes := σ.closes + 1, linesClosed := true }
      else some { σ with input := rest, pump := .send x }
  | .send x =>
    if σ.queue.length < linesCap then some { σ with queue := σ.queue ++ [x], pump := .scan }
    else none
  | .done => none

/-- One step of the second goroutine; `none` when it cannot move (blocked on
an empty open channel, or returned). -/
def framerStep (now : ℕ) (σ : Session) : Option Session :=
  match σ.framer with
  | .recv =>
    match σ.queue with
    | x :: q =>
      match Read.step now σ.started σ.block x with
      | .inl entry => some { σ with queue := q, entries := σ.entries ++ [entry], framer := .leave }
      | .inr (s, b) => some { σ with queue := q, started := s, block := b }
    | [] => if σ.linesClosed then some { σ with framer := .leave } else none
  | .leave => some { σ with stopped := true, framer := .done }
  | .done => none

/-- One step of the session: of the first goroutine when `who` is true, of
the second otherwise. -/
def Session.step (now : ℕ) (σ : Session) (who : Bool) : Option Session :=
  if who then pumpStep σ else framerStep now σ

/-- The state after the steps of a schedule, `none` when the schedule asks a
goroutine to move that cannot. -/
def Session.run (now : ℕ) : Session → List Bool → Option Session
  | σ, [] => some σ
  | σ, who :: rest =>
    match Session.step now σ who with
    | none => none
    | some σ2 => Session.run now σ2 rest

/-! ## The vocabulary of the specification -/

/-- A decimal token: one or more digits with at most one dot. -/
def isDecimalToken (d : String) : Bool :=
  d.data.all digitDot && d.data.any Char.isDigit && decide (d.data.count '.' ≤ 1)

/-- A unit suffix in the wide sense: non-empty, its first character is not a
digit, a dot or a closing parenthesis, and it contains no parenthesis. -/
def isUnitSuffix (u : String) : Bool :=
  match u.data with
  | [] => false
  | c :: _ => notDigitDotParen c && u.data.all (fun x => x != '(' && x != ')')

/-- A unit suffix in the narrow sense: non-empty and free of digits, dots and
parentheses. -/
def isPlainUnit (u : String) : Bool :=
  !u.data.isEmpty && u.data.all (fun c => !digitDot c && c != '(' && c != ')')

/-- The number written by a string of decimal digits, most significant first. -/
def digitsValue (ds : List Char) : ℕ :=
  Nat.ofDigits 10 (ds.reverse.map (fun c => c.toNat - '0'.toNat))

/-- The base-10 value of a decimal token: the digits before the dot, plus the
digits after it scaled by the power of ten of their number. -/
def decimalValue (d : String) : ℚ :=
  let ip := d.data.takeWhile (· != '.')
  let fp := (d.data.dropWhile (· != '.')).drop 1
  (digitsValue ip : ℚ) + (digitsValue fp : ℚ) / ((10 ^ fp.length : ℕ) : ℚ)

/-- The float64 a decimal token denotes: the float64 nearest to its base-10
value, and 0 when that value is beyond the float64 range. -/
def tokenFloat (d : String) : ℚ := (nearestFloat64 (decimalValue d)).getD 0

/-- Whether a character list contains a `(` immediately followed by a digit or
a dot. -/
def hasParenDigit : List Char → Bool
  | [] => false
  | [_] => false
  | x :: y :: t => (x == '(' && digitDot y) || hasParenDigit (y :: t)

/-- A captured token that `ParseFloat` cannot read: two or more dots, or no
digit at all. -/
def isMalformedToken (t : String) : Bool :=
  decide (2 ≤ t.data.count '.') || !t.data.any Char.isDigit

/-- The prefix-to-field table of the specification. -/
def prefixTable : List (String × (Entry → ℚ)) :=
  [("1-0:1.8.1", Entry.ElectricityLow), ("1-0:1.8.2", Entry.ElectricityNormal),
   ("0-1:24.2.1", Entry.Gas)]

/-- Whether a character list begins with a group as `reval` sees it: a `(`,
then a run of one or more digits and dots, then a character that is not a
digit, a dot or `)`. -/
def startsGroup : List Char → Bool
  | [] => false
  | c :: rest =>
    c == '(' && !(rest.takeWhile digitDot).isEmpty &&
      match rest.dropWhile digitDot with
      | [] => false
      | u :: _ => notDigitDotParen u

/-- The run of digits and dots of a group: what follows its `(`. -/
def groupToken (t : String) : String := String.mk ((t.data.drop 1).takeWhile digitDot)

/-- Whether no group begins at a later position of `t` than its first. -/
def noLaterGroup (t : List Char) : Bool := t.tail.tails.all (fun s => !startsGroup s)

/-! ## Auxiliary definitions for the proofs -/

/-- The part of `reval` after the leading `.+`. -/
def revalTail : List Node :=
  [.one lparen, .mark, .plus digitDot, .mark, .plus notDigitDotParen]

/-- One step of the digit accumulation of `readFloat`. -/
def digitStep (n : ℕ) (c : Char) : ℕ := n * 10 + (c.toNat - '0'.toNat)

/-- The token captured by group 1 of `reval`, the argument of `ParseFloat` in
`readValue` (the empty string when the line does not match). -/
def capturedToken (line : String) : String := (FindStringSubmatch reval line).getD 1 ""

/-- The emitted entry `r` comes from a framed telegram: a start marker, lines
none of which is an end marker, and an end marker; the block is what remains
of the lines in between when further start markers are left out. -/
def Framed (now : ℕ) (ls : List String) (r : Entry) : Prop :=
  ∃ pre s mid e post, ls = pre ++ s :: (mid ++ e :: post) ∧
    HasPrefix s "/ISK5" = true ∧ HasPrefix e "!" = true ∧
    (∀ l ∈ mid, HasPrefix l "!" = false) ∧
    parseEntry now (mid.filter (fun l => !HasPrefix l "/ISK5")) = .ok r

/-- An entry has no negative field. -/
def Entry.nonneg (e : Entry) : Prop :=
  0 ≤ e.ElectricityLow ∧ 0 ≤ e.ElectricityNormal ∧ 0 ≤ e.Gas

/-- A stream of 104 lines: one telegram, then 101 further lines. -/
def backlogInput : List String :=
  ["/ISK5...", "1-0:1.8.1(2.5*kWh)", "!..."] ++ List.replicate 101 "0-0:96.13.0()"

/-- A schedule in which the first goroutine runs ahead: it fills the channel
with 100 lines and stands at the send of the next one; then the second
goroutine receives a line and the first one sends and scans again, three
times, which takes the telegram out of the channel and leaves the first
goroutine at a send into a full channel; at last the second goroutine sets
`stopped` and returns. -/
def backlogSchedule : List Bool :=
  List.replicate 201 true ++ [false, true, true, false, true, true, false, true, true, false]

/-! ## Lemmas on the backtracking matcher -/

theorem star_of_not_head (c : Char → Bool) (k : List Char → Option (List (List Char)))
    (b : List Char) (hb : ∀ y t, b = y :: t → c y = false) : star c k b = k b := by
  cases b with
  | nil => rfl
  | cons y t => simp [star, hb y t rfl]

theorem star_append_left (c : Char → Bool) (k : List Char → Option (List (List Char)))
    (a b : List Char) (r : List (List Char)) (ha : ∀ x ∈ a, c x = true)
    (h : star c k b = some r) : star c k (a ++ b) = some r := by
  induction a with
  | nil => simpa using h
  | cons x a ih =>
    have hx : c x = true := ha x (List.mem_cons_self _ _)
    have ih2 := ih (fun y hy => ha y (List.mem_cons_of_mem _ hy))
    simp [star, hx, ih2]

theorem star_none (c : Char → Bool) (k : List Char → Option (List (List Char)))
    (s : List Char) (h : ∀ t, t <:+ s → k t = none) : star c k s = none := by
  induction s with
  | nil => simpa [star] using h [] (List.suffix_refl _)
  | cons x xs ih =>
    have h1 : k (x :: xs) = none := h _ (List.suffix_refl _)
    have h2 : star c k xs = none := ih (fun t ht => h t (ht.trans (List.suffix_cons x xs)))
    by_cases hx : c x = true <;> simp [star, hx, h1, h2]

theorem star_sound (c : Char → Bool) (k : List Char → Option (List (List Char)))
    (s : List Char) (r : List (List Char)) (h : star c k s = some r) :
    ∃ a t, s = a ++ t ∧ (∀ x ∈ a, c x = true) ∧ k t = some r := by
  induction s with
  | nil => exact ⟨[], [], rfl, by simp, by simpa [star] using h⟩
  | cons x xs ih =>
    by_cases hx : c x = true
    · simp only [star, hx, if_true] at h
      cases h2 : star c k xs with
      | none =>
        rw [h2] at h
        exact ⟨[], x :: xs, rfl, by simp, by simpa using h⟩
      | some r2 =>
        rw [h2] at h
        have : r2 = r := by simpa using h
        subst this
        obtain ⟨a, t, hs, ha, hk⟩ := ih h2
        refine ⟨x :: a, t, by rw [hs]; rfl, ?_, hk⟩
        intro y hy
        rcases List.mem_cons.mp hy with h | h
        · rw [h]; exact hx
        · exact ha y h
    · simp only [star, hx] at h
      exact ⟨[], x :: xs, rfl, by simp, by simpa using h⟩

theorem star_eq_or_none (c : Char → Bool) (k : List Char → Option (List (List Char)))
    (a b : List Char) (ha : ∀ y ∈ a, ∀ t, k (y :: t) = none) :
    star c k (a ++ b) = star c k b ∨ star c k (a ++ b) = none := by
  induction a with
  | nil => left; rfl
  | cons y a ih =>
    have hy : k (y :: (a ++ b)) = none := ha y (List.mem_cons_self _ _) _
    have ih2 := ih (fun z hz => ha z (List.mem_cons_of_mem _ hz))
    by_cases hc : c y = true
    · rcases ih2 with h | h
      · left; simp [star, hc, hy, h]
      · right; simp [star, hc, hy, h]
    · right; simp [star, hc, hy]

theorem star_final (c : Char → Bool) (s : List Char) :
    star c (matchSeq []) s = some [s.dropWhile c] := by
  induction s with
  | nil => rfl
  | cons x xs ih =>
    by_cases hc : c x = true
    · simp [star, hc, ih, List.dropWhile]
    · simp [star, hc, List.dropWhile, matchSeq]

theorem star_at (c : Char → Bool) (k : List Char → Option (List (List Char)))
    (b : List Char) (r : List (List Char)) (hk : k b = some r)
    (hfail : ∀ t, t <:+ b → t ≠ b → k t = none) : star c k b = some r := by
  cases b with
  | nil => simpa [star] using hk
  | cons y t =>
    have h2 : star c k t = none := by
      apply star_none
      intro t2 ht2
      apply hfail t2 (ht2.trans (List.suffix_cons y t))
      intro he
      have := ht2.length_le
      rw [he] at this
      simp at this
    by_cases hc : c y = true <;> simp [star, hc, h2, hk]

theorem matchSeq_reval (x : Char) (xs : List Char) :
    matchSeq reval (x :: xs) =
      if anyNotNL x then star anyNotNL (matchSeq revalTail) xs else none := rfl

theorem matchSeq_one_cons (c : Char → Bool) (ps : List Node) (x : Char) (xs : List Char) :
    matchSeq (.one c :: ps) (x :: xs) = if c x then matchSeq ps xs else none := rfl

theorem matchSeq_plus_cons (c : Char → Bool) (ps : List Node) (x : Char) (xs : List Char) :
    matchSeq (.plus c :: ps) (x :: xs) = if c x then star c (matchSeq ps) xs else none := rfl

theorem matchSeq_mark (ps : List Node) (s : List Char) :
    matchSeq (.mark :: ps) s = (matchSeq ps s).map (s :: ·) := by
  rw [matchSeq]

theorem matchSeq_reval_nil : matchSeq reval [] = none := rfl

theorem revalTail_head (y : Char) (t : List Char) (hy : y ≠ '(') :
    matchSeq revalTail (y :: t) = none := by
  simp [revalTail, matchSeq, lparen, hy]

theorem revalTail_none (t : List Char) (ht : '(' ∉ t) : matchSeq revalTail t = none := by
  cases t with
  | nil => rfl
  | cons y t =>
    apply revalTail_head
    intro h
    exact ht (h ▸ List.mem_cons_self _ _)

theorem revalTail_match (d : List Char) (u0 : Char) (w : List Char) (hd : d ≠ [])
    (hdd : ∀ x ∈ d, digitDot x = true) (hu : notDigitDotParen u0 = true) :
    matchSeq revalTail ('(' :: (d ++ u0 :: w)) =
      some [d ++ u0 :: w, u0 :: w, w.dropWhile notDigitDotParen] := by
  cases d with
  | nil => exact absurd rfl hd
  | cons d0 d =>
    have hd0 : digitDot d0 = true := hdd d0 (List.mem_cons_self _ _)
    have hu0 : digitDot u0 = false := by
      simp only [notDigitDotParen, digitDot] at hu ⊢
      revert hu
      cases u0.isDigit <;> cases (u0 == '.') <;> simp
    have h1 : star digitDot (matchSeq [.mark, .plus notDigitDotParen]) (u0 :: w) =
        some [u0 :: w, w.dropWhile notDigitDotParen] := by
      rw [star_of_not_head _ _ _ (by intro y t h; cases h; exact hu0)]
      rw [matchSeq_mark, matchSeq_plus_cons, if_pos hu, star_final]
      rfl
    have h2 := star_append_left digitDot (matchSeq [.mark, .plus notDigitDotParen]) d
      (u0 :: w) _ (fun x hx => hdd x (List.mem_cons_of_mem _ hx)) h1
    have hl : lparen '(' = true := rfl
    rw [revalTail, matchSeq_one_cons, if_pos hl, matchSeq_mark, List.cons_append,
      matchSeq_plus_cons, if_pos hd0, h2]
    rfl

theorem search_cons (re : List Node) (x : Char) (xs : List Char) :
    search re (x :: xs) =
      match matchSeq re (x :: xs) with
      | some r => some (x :: xs, r)
      | none => search re xs := rfl

theorem search_single (p rest : List Char) (r : List (List Char)) (hp : p ≠ [])
    (hnp : '(' ∉ p) (hlast : p.getLast? ≠ some '\n')
    (hk : matchSeq revalTail rest = some r)
    (hfail : ∀ t, t <:+ rest → t ≠ rest → matchSeq revalTail t = none) :
    ∃ start, search reval (p ++ rest) = some (start, r) := by
  have hstar := star_at anyNotNL (matchSeq revalTail) rest r hk hfail
  induction p with
  | nil => exact absurd rfl hp
  | cons x p ih =>
    have hor := star_eq_or_none anyNotNL (matchSeq revalTail) p rest
      (fun y hy t => revalTail_head y t (fun h => hnp (h ▸ List.mem_cons_of_mem _ hy)))
    rw [List.cons_append, search_cons, matchSeq_reval]
    by_cases hpe : p = []
    · subst hpe
      have hx : anyNotNL x = true := by
        simp only [anyNotNL, bne_iff_ne]
        intro h
        exact hlast (by simp [h])
      rw [if_pos hx, List.nil_append, hstar]
      exact ⟨_, rfl⟩
    · have hl2 : p.getLast? ≠ some '\n' := by
        obtain ⟨y, q, rfl⟩ := List.exists_cons_of_ne_nil hpe
        rwa [List.getLast?_cons_cons] at hlast
      have ih2 := ih hpe (fun h => hnp (List.mem_cons_of_mem _ h)) hl2
      by_cases hx : anyNotNL x = true
      · rw [if_pos hx]
        rcases hor with h | h
        · rw [h, hstar]
          exact ⟨_, rfl⟩
        · rw [h]
          exact ih2
      · rw [if_neg hx]
        exact ih2

theorem search_last (a rest : List Char) (r : List (List Char)) (ha : a ≠ [])
    (hnl : ∀ x ∈ a, anyNotNL x = true)
    (hk : matchSeq revalTail rest = some r)
    (hfail : ∀ t, t <:+ rest → t ≠ rest → matchSeq revalTail t = none) :
    search reval (a ++ rest) = some (a ++ rest, r) := by
  have hstar := star_at anyNotNL (matchSeq revalTail) rest r hk hfail
  cases a with
  | nil => exact absurd rfl ha
  | cons x a =>
    have h := star_append_left anyNotNL (matchSeq revalTail) a rest r
      (fun y hy => hnl y (List.mem_cons_of_mem _ hy)) hstar
    rw [List.cons_append, search_cons, matchSeq_reval, if_pos (hnl x (List.mem_cons_self _ _)), h]

theorem group_fail (body : List Char) (hb : '(' ∉ body) :
    ∀ t, t <:+ '(' :: body → t ≠ '(' :: body → matchSeq revalTail t = none := by
  intro t ht hne
  rcases List.suffix_cons_iff.mp ht with h | h
  · exact absurd h hne
  · exact revalTail_none t (fun hm => hb (h.subset hm))

theorem between_append (d w : List Char) : between (d ++ w) w = d := by
  simp [between]

/-! ## The decimal reader against the base-10 value -/

theorem isDigit_ne_dot (c : Char) (h : c.isDigit = true) : (c == '.') = false := by
  rw [beq_eq_false_iff_ne]
  intro he
  subst he
  exact absurd h (by decide)

theorem foldl_digitStep (ds : List Char) (m : ℕ) :
    ds.foldl digitStep m = m * 10 ^ ds.length + digitsValue ds := by
  induction ds generalizing m with
  | nil => simp [digitsValue]
  | cons c ds ih =>
    rw [List.foldl_cons, ih]
    simp only [digitsValue, digitStep, List.reverse_cons, List.map_append, List.map_cons,
      List.map_nil, Nat.ofDigits_append, Nat.ofDigits_singleton, List.length_map,
      List.length_reverse, List.length_cons]
    ring

theorem readFloat_digits (ds rest : List Char) (m f : ℕ) (b sd : Bool)
    (hds : ∀ c ∈ ds, c.isDigit = true) :
    readFloat (ds ++ rest) ⟨m, f, b, sd⟩ =
      readFloat rest ⟨ds.foldl digitStep m, if b then f + ds.length else f, b,
        sd || !ds.isEmpty⟩ := by
  induction ds generalizing m f sd with
  | nil => simp
  | cons c ds ih =>
    have hc : c.isDigit = true := hds c (List.mem_cons_self _ _)
    have hdot := isDigit_ne_dot c hc
    rw [List.cons_append, readFloat, hdot]
    simp only [hc, if_true, Bool.false_eq_true, if_false]
    rw [ih _ _ _ (fun x hx => hds x (List.mem_cons_of_mem _ hx))]
    cases b <;> simp [digitStep, Nat.add_assoc, Nat.add_comm 1]

theorem readFloat_nil (st : Scan) :
    readFloat [] st = if st.sawdigits then some st else none := by
  rw [readFloat]

theorem readFloat_dot (cs : List Char) (st : Scan) :
    readFloat ('.' :: cs) st =
      if st.sawdot then none else readFloat cs { st with sawdot := true } := by
  rw [readFloat]
  simp

theorem digit_of_digitDot (c : Char) (h : digitDot c = true) (hne : c ≠ '.') :
    c.isDigit = true := by
  simp only [digitDot, Bool.or_eq_true, beq_iff_eq] at h
  rcases h with h | h
  · exact h
  · exact absurd h hne

/-- A decimal token splits into digits, then possibly a dot and more digits,
with a digit somewhere. -/
theorem decimalToken_split (d : String) (hd : isDecimalToken d = true) :
    ∃ ip fp : List Char, (∀ c ∈ ip, c.isDigit = true) ∧ (∀ c ∈ fp, c.isDigit = true) ∧
      (ip ≠ [] ∨ fp ≠ []) ∧ d.data.takeWhile (· != '.') = ip ∧
      ((d.data = ip ∧ fp = [] ∧ d.data.dropWhile (· != '.') = []) ∨
       (d.data = ip ++ '.' :: fp ∧ d.data.dropWhile (· != '.') = '.' :: fp)) := by
  simp only [isDecimalToken, Bool.and_eq_true, List.all_eq_true, List.any_eq_true,
    decide_eq_true_eq] at hd
  obtain ⟨⟨hall, c0, hc0, hc0d⟩, hcount⟩ := hd
  have hsplit := List.takeWhile_append_dropWhile (· != '.') d.data
  have hip : ∀ c ∈ d.data.takeWhile (· != '.'), c.isDigit = true := by
    intro c hc
    have h1 := List.mem_takeWhile_imp hc
    have h2 : c ∈ d.data := List.takeWhile_prefix _ |>.subset hc
    exact digit_of_digitDot c (hall c h2) (by simpa using h1)
  cases htl : d.data.dropWhile (· != '.') with
  | nil =>
    rw [htl, List.append_nil] at hsplit
    refine ⟨_, [], hip, by simp, ?_, rfl, Or.inl ⟨hsplit.symm, rfl, rfl⟩⟩
    left
    intro h
    rw [h] at hsplit
    rw [← hsplit] at hc0
    simp at hc0
  | cons y fp =>
    have hy : y = '.' := by
      have := List.head_dropWhile_not (· != '.') d.data (by rw [htl]; simp)
      simp only [htl, List.head_cons] at this
      simpa using this
    subst hy
    rw [htl] at hsplit
    have hfp : ∀ c ∈ fp, c.isDigit = true := by
      intro c hc
      have hmem : c ∈ d.data := by rw [← hsplit]; simp [hc]
      apply digit_of_digitDot c (hall c hmem)
      intro he
      subst he
      rw [← hsplit] at hcount
      simp only [List.count_append, List.count_cons_self] at hcount
      have : 0 < List.count '.' fp := List.count_pos_iff.mpr hc
      omega
    refine ⟨_, fp, hip, hfp, ?_, rfl, Or.inr ⟨hsplit.symm, rfl⟩⟩
    by_contra hcon
    push_neg at hcon
    rw [hcon.1, hcon.2] at hsplit
    rw [← hsplit] at hc0
    simp only [List.nil_append, List.mem_singleton] at hc0
    subst hc0
    exact absurd hc0d (by decide)

/-- On a decimal token the reader accepts and reads exactly its base-10
value. -/
theorem readFloat_decimalToken (d : String) (hd : isDecimalToken d = true) :
    ∃ st, readFloat d.data ⟨0, 0, false, false⟩ = some st ∧
      (st.mant : ℚ) / ((10 ^ st.frac : ℕ) : ℚ) = decimalValue d := by
  obtain ⟨ip, fp, hip, hfp, hne, htw, hcase⟩ := decimalToken_split d hd
  rcases hcase with ⟨hdata, hfpe, hdw⟩ | ⟨hdata, hdw⟩
  · subst hfpe
    have hipne : ip ≠ [] := by simpa using hne
    have h1 := readFloat_digits ip [] 0 0 false false hip
    rw [List.append_nil] at h1
    have hemp : ip.isEmpty = false := by cases ip <;> simp_all
    refine ⟨⟨ip.foldl digitStep 0, 0, false, true⟩,
      by rw [hdata, h1, readFloat_nil]; simp [hemp], ?_⟩
    simp [decimalValue, htw, hdw, foldl_digitStep, digitsValue]
  · have h1 := readFloat_digits ip ('.' :: fp) 0 0 false false hip
    have h2 := readFloat_digits fp [] (ip.foldl digitStep 0) 0 true (false || !ip.isEmpty) hfp
    rw [List.append_nil] at h2
    have hemp : (false || !ip.isEmpty || !fp.isEmpty) = true := by
      cases ip <;> cases fp <;> simp_all
    refine ⟨⟨fp.foldl digitStep (ip.foldl digitStep 0), fp.length, true, true⟩, ?_, ?_⟩
    · rw [hdata, h1, readFloat_dot]
      simp only [Bool.false_eq_true, if_false]
      rw [h2, readFloat_nil]
      simp only [hemp, if_true, zero_add]
    simp only [decimalValue, htw, hdw, foldl_digitStep, List.drop_succ_cons, List.drop_zero,
      if_true, zero_mul, zero_add, List.length_nil, pow_zero]
    have h10 : ((10 ^ fp.length : ℕ) : ℚ) ≠ 0 := by positivity
    push_cast
    field_simp

/-- Known roundings: the float64 written `0.1`, the float64 nearest to one
third, a tie that goes to the even neighbour, the largest finite float64 and
the overflow threshold just above it, and ties on the subnormal grid. -/
theorem nearestFloat64_examples :
    nearestFloat64 (1 / 10) = some (3602879701896397 / 2 ^ 55) ∧
    nearestFloat64 (1 / 3) = some (6004799503160661 / 2 ^ 54) ∧
    nearestFloat64 (2 ^ 53 + 1) = some (2 ^ 53) ∧
    nearestFloat64 (2 ^ 53 + 3) = some (2 ^ 53 + 4) ∧
    nearestFloat64 (2 ^ 1024 - 2 ^ 970 - 1) = some (2 ^ 1024 - 2 ^ 971) ∧
    nearestFloat64 (2 ^ 1024 - 2 ^ 970) = none ∧
    nearestFloat64 (1 / 2 ^ 1075) = some 0 ∧
    nearestFloat64 (3 / 2 ^ 1075) = some (1 / 2 ^ 1073) ∧
    nearestFloat64 0 = some 0 := by
  refine ⟨?_, ?_, ?_, ?_, ?_, ?_, ?_, ?_, ?_⟩ <;> decide!

/-! ## What a match of `reval` looks like -/

/-- A match of the tail of `reval` starts with `(` and a non-empty run of
digits and dots, which is the text between the two recorded positions. -/
theorem revalTail_sound (t : List Char) (r : List (List Char))
    (h : matchSeq revalTail t = some r) :
    ∃ d w e, t = '(' :: (d ++ w) ∧ d ≠ [] ∧ (∀ x ∈ d, digitDot x = true) ∧
      r = [d ++ w, w, e] := by
  cases t with
  | nil => simp [revalTail, matchSeq] at h
  | cons x xs =>
    rw [revalTail, matchSeq_one_cons] at h
    by_cases hx : lparen x = true
    · rw [if_pos hx, matchSeq_mark] at h
      have hx2 : x = '(' := by simpa [lparen] using hx
      cases xs with
      | nil => simp [matchSeq] at h
      | cons y ys =>
        rw [matchSeq_plus_cons] at h
        by_cases hy : digitDot y = true
        · rw [if_pos hy] at h
          cases h2 : star digitDot (matchSeq [.mark, .plus notDigitDotParen]) ys with
          | none => rw [h2] at h; simp at h
          | some r2 =>
            rw [h2] at h
            obtain ⟨a, w, hys, ha, hk⟩ := star_sound _ _ _ _ h2
            rw [matchSeq_mark] at hk
            cases h3 : matchSeq [.plus notDigitDotParen] w with
            | none => rw [h3] at hk; simp at hk
            | some r3 =>
              rw [h3] at hk
              cases w with
              | nil => simp [matchSeq] at h3
              | cons z zs =>
                rw [matchSeq_plus_cons] at h3
                by_cases hz : notDigitDotParen z = true
                · rw [if_pos hz, star_final] at h3
                  refine ⟨y :: a, z :: zs, zs.dropWhile notDigitDotParen, ?_, by simp, ?_, ?_⟩
                  · rw [hx2, hys]; rfl
                  · intro c hc
                    rcases List.mem_cons.mp hc with hc | hc
                    · rw [hc]; exact hy
                    · exact ha c hc
                  · simp only [Option.map_some', Option.some.injEq] at hk h h3
                    rw [← h, ← hk, ← h3, hys]
                    rfl
                · rw [if_neg hz] at h3
                  simp at h3
        · rw [if_neg hy] at h
          simp at h
    · rw [if_neg hx] at h
      simp at h

/-- Every result of the search has the shape of a match of `reval`: the
recorded positions delimit a non-empty run of digits and dots that follows a
`(` in the input. -/
theorem search_sound (s start : List Char) (r : List (List Char))
    (h : search reval s = some (start, r)) :
    ∃ pre d w e, s = pre ++ '(' :: (d ++ w) ∧ d ≠ [] ∧ (∀ x ∈ d, digitDot x = true) ∧
      r = [d ++ w, w, e] := by
  induction s with
  | nil => simp [search, matchSeq_reval_nil] at h
  | cons x xs ih =>
    rw [search_cons] at h
    cases hm : matchSeq reval (x :: xs) with
    | none =>
      rw [hm] at h
      obtain ⟨pre, d, w, e, hs, hd, hdd, hr⟩ := ih h
      exact ⟨x :: pre, d, w, e, by rw [hs]; rfl, hd, hdd, hr⟩
    | some r2 =>
      rw [hm] at h
      simp only [Option.some.injEq, Prod.mk.injEq] at h
      rw [matchSeq_reval] at hm
      by_cases hx : anyNotNL x = true
      · rw [if_pos hx] at hm
        obtain ⟨a, t, hxs, _, hk⟩ := star_sound _ _ _ _ hm
        obtain ⟨d, w, e, ht, hd, hdd, hr⟩ := revalTail_sound t r2 hk
        exact ⟨x :: a, d, w, e, by rw [hxs, ht]; rfl, hd, hdd, by rw [← h.2, hr]⟩
      · rw [if_neg hx] at hm
        simp at hm

theorem FindStringSubmatch_of_search (line : String) (start d w e : List Char)
    (h : search reval line.data = some (start, [d ++ w, w, e])) :
    FindStringSubmatch reval line = [String.mk (between start e), String.mk d] := by
  simp [FindStringSubmatch, h, between_append]

theorem FindStringSubmatch_none (line : String) (h : search reval line.data = none) :
    FindStringSubmatch reval line = [] := by
  simp [FindStringSubmatch, h]

/-- The captured token consists of digits and dots only. -/
theorem capture_digitDot (line : String) :
    ∀ c ∈ (capturedToken line).data, digitDot c = true := by
  intro c hc
  cases hs : search reval line.data with
  | none =>
    rw [capturedToken, FindStringSubmatch_none line hs] at hc
    simp at hc
  | some res =>
    obtain ⟨start, r⟩ := res
    obtain ⟨pre, d, w, e, _, _, hdd, hr⟩ := search_sound _ _ _ hs
    subst hr
    rw [capturedToken, FindStringSubmatch_of_search line start d w e hs] at hc
    exact hdd c (by simpa using hc)

theorem readValue_of_search (line : String) (start d w e : List Char)
    (h : search reval line.data = some (start, [d ++ w, w, e])) :
    readValue line =
      match ParseFloat (String.mk d) with
      | .error _ => 0
      | .ok v => v := by
  simp [readValue, FindStringSubmatch_of_search line start d w e h]

theorem readValue_of_no_match (line : String) (h : search reval line.data = none) :
    readValue line = 0 := by
  simp [readValue, FindStringSubmatch_none line h]

theorem ParseFloat_decimalToken (d : String) (hd : isDecimalToken d = true) :
    ParseFloat d =
      match nearestFloat64 (decimalValue d) with
      | none => .error .ErrRange
      | some v => .ok v := by
  obtain ⟨st, hst, hv⟩ := readFloat_decimalToken d hd
  simp only [ParseFloat, hst, hv]

theorem readValue_of_token (line : String) (start w e : List Char) (d : String)
    (hd : isDecimalToken d = true)
    (h : search reval line.data = some (start, [d.data ++ w, w, e])) :
    readValue line = tokenFloat d := by
  rw [readValue_of_search line start d.data w e h]
  have hd2 : String.mk d.data = d := rfl
  rw [hd2, ParseFloat_decimalToken d hd, tokenFloat]
  cases nearestFloat64 (decimalValue d) <;> rfl

/-! ## Tokens and unit suffixes -/

theorem digitDot_ne_lparen (c : Char) (h : digitDot c = true) : c ≠ '(' := by
  intro he
  subst he
  exact absurd h (by decide)

theorem digitDot_anyNotNL (c : Char) (h : digitDot c = true) : anyNotNL c = true := by
  simp only [anyNotNL, bne_iff_ne]
  intro he
  subst he
  exact absurd h (by decide)

theorem decimalToken_data (d : String) (hd : isDecimalToken d = true) :
    d.data ≠ [] ∧ ∀ x ∈ d.data, digitDot x = true := by
  simp only [isDecimalToken, Bool.and_eq_true, List.all_eq_true, List.any_eq_true,
    decide_eq_true_eq] at hd
  obtain ⟨⟨hall, c0, hc0, _⟩, _⟩ := hd
  exact ⟨List.ne_nil_of_mem hc0, hall⟩

theorem unitSuffix_data (u : String) (hu : isUnitSuffix u = true) :
    ∃ u0 w, u.data = u0 :: w ∧ notDigitDotParen u0 = true ∧ '(' ∉ u.data := by
  unfold isUnitSuffix at hu
  cases hdata : u.data with
  | nil => rw [hdata] at hu; simp at hu
  | cons u0 w =>
    rw [hdata] at hu
    simp only [Bool.and_eq_true, List.all_eq_true, bne_iff_ne, ne_eq] at hu
    exact ⟨u0, w, rfl, hu.1, fun hm => (hu.2 _ hm).1 rfl⟩

theorem plainUnit_data (u : String) (hu : isPlainUnit u = true) :
    ∃ u0 w, u.data = u0 :: w ∧ notDigitDotParen u0 = true ∧ '(' ∉ u.data := by
  simp only [isPlainUnit, Bool.and_eq_true, Bool.not_eq_true', List.all_eq_true, bne_iff_ne,
    ne_eq] at hu
  obtain ⟨hne, hall⟩ := hu
  cases hdata : u.data with
  | nil => rw [hdata] at hne; simp at hne
  | cons u0 w =>
    rw [hdata] at hall
    refine ⟨u0, w, rfl, ?_, ?_⟩
    · have h0 := hall u0 (List.mem_cons_self _ _)
      simp only [notDigitDotParen, digitDot] at h0 ⊢
      obtain ⟨⟨h1, _⟩, h3⟩ := h0
      simp only [Bool.or_eq_false_iff] at h1
      simp [h1.1, h1.2, h3]
    · intro hm
      exact (hall _ hm).1.2 rfl

/-- The search on a line that ends in one group `(d u)` preceded by `a`, once
the search through `a` is settled by `hsearch`. -/
theorem group_match (d : String) (u0 : Char) (w : List Char)
    (hd : isDecimalToken d = true) (hu0 : notDigitDotParen u0 = true)
    (hw : '(' ∉ u0 :: w) :
    matchSeq revalTail ('(' :: (d.data ++ u0 :: w)) =
        some [d.data ++ u0 :: w, u0 :: w, w.dropWhile notDigitDotParen] ∧
      ∀ t, t <:+ '(' :: (d.data ++ u0 :: w) → t ≠ '(' :: (d.data ++ u0 :: w) →
        matchSeq revalTail t = none := by
  obtain ⟨hne, hall⟩ := decimalToken_data d hd
  refine ⟨revalTail_match d.data u0 w hne hall hu0, group_fail _ ?_⟩
  intro hm
  rcases List.mem_append.mp hm with h | h
  · exact digitDot_ne_lparen _ (hall _ h) rfl
  · exact hw h

/-! ## Lines without a match, and malformed tokens -/

theorem hasParenDigit_cons (x : Char) (s : List Char) (h : hasParenDigit s = true) :
    hasParenDigit (x :: s) = true := by
  cases s with
  | nil => simp [hasParenDigit] at h
  | cons y t => simp [hasParenDigit, h]

theorem hasParenDigit_append (pre s : List Char) (h : hasParenDigit s = true) :
    hasParenDigit (pre ++ s) = true := by
  induction pre with
  | nil => simpa using h
  | cons x pre ih => exact hasParenDigit_cons x _ ih

theorem hasParenDigit_of_search (s start : List Char) (r : List (List Char))
    (h : search reval s = some (start, r)) : hasParenDigit s = true := by
  obtain ⟨pre, d, w, e, hs, hd, hdd, _⟩ := search_sound s start r h
  rw [hs]
  apply hasParenDigit_append
  cases d with
  | nil => exact absurd rfl hd
  | cons y d => simp [hasParenDigit, hdd y (List.mem_cons_self _ _)]

theorem hasParenDigit_of_not_mem (s : List Char) (h : '(' ∉ s) : hasParenDigit s = false := by
  induction s with
  | nil => rfl
  | cons x s ih =>
    have hx : x ≠ '(' := fun he => h (he ▸ List.mem_cons_self _ _)
    have ih2 := ih (fun hm => h (List.mem_cons_of_mem _ hm))
    cases s with
    | nil => rfl
    | cons y t => simp [hasParenDigit, hx, ih2]

theorem readFloat_some (cs : List Char) (st st2 : Scan) (h : readFloat cs st = some st2) :
    (st.sawdigits = true ∨ cs.any Char.isDigit = true) ∧
      cs.count '.' + (if st.sawdot then 1 else 0) ≤ 1 := by
  induction cs generalizing st with
  | nil =>
    rw [readFloat_nil] at h
    by_cases hs : st.sawdigits = true
    · refine ⟨Or.inl hs, ?_⟩
      cases st.sawdot <;> simp
    · simp [hs] at h
  | cons c cs ih =>
    rw [readFloat] at h
    by_cases hdot : (c == '.') = true
    · have hc : c = '.' := by simpa using hdot
      subst hc
      simp only [beq_self_eq_true, if_true] at h
      by_cases hsd : st.sawdot = true
      · simp [hsd] at h
      · simp only [hsd, Bool.false_eq_true, if_false] at h
        have := ih _ h
        simp only [if_true] at this
        refine ⟨?_, ?_⟩
        · rcases this.1 with h1 | h1
          · exact Or.inl h1
          · right; simp [h1]
        · simp only [List.count_cons_self, hsd, Bool.false_eq_true, if_false]
          omega
    · simp only [hdot, Bool.false_eq_true, if_false] at h
      by_cases hdig : c.isDigit = true
      · simp only [hdig, if_true] at h
        have := ih _ h
        have hne : c ≠ '.' := by simpa using hdot
        refine ⟨Or.inr (by simp [hdig]), ?_⟩
        rw [List.count_cons_of_ne hne.symm]
        exact this.2
      · simp [hdig] at h

theorem ParseFloat_malformed (t : String) (h : isMalformedToken t = true) :
    ParseFloat t = .error .ErrSyntax := by
  cases hr : readFloat t.data ⟨0, 0, false, false⟩ with
  | none => simp [ParseFloat, hr]
  | some st =>
    have := readFloat_some _ _ _ hr
    simp only [isMalformedToken, Bool.or_eq_true, decide_eq_true_eq, Bool.not_eq_true'] at h
    simp only [Bool.false_eq_true, false_or, if_false, add_zero] at this
    rcases h with h | h
    · omega
    · rw [h] at this
      exact absurd this.1 (by simp)

/-! ## parseEntry and the framing loop -/

theorem HasPrefix_iff (s pre : String) :
    HasPrefix s pre = true ↔ ∃ t, s.data = pre.data ++ t := by
  rw [HasPrefix, List.isPrefixOf_iff_prefix]
  constructor
  · rintro ⟨t, ht⟩
    exact ⟨t, ht.symm⟩
  · rintro ⟨t, ht⟩
    exact ⟨t, ht.symm⟩

theorem bang_not_start (e : String) (he : HasPrefix e "!" = true) :
    HasPrefix e "/ISK5" = false := by
  obtain ⟨t, ht⟩ := (HasPrefix_iff e "!").mp he
  have h1 : ("!" : String).data = ['!'] := rfl
  have h2 : ("/ISK5" : String).data = ['/', 'I', 'S', 'K', '5'] := rfl
  simp [HasPrefix, ht, h1, h2, List.isPrefixOf]

theorem low_not_normal (x : String) (h : HasPrefix x "1-0:1.8.1" = true) :
    HasPrefix x "1-0:1.8.2" = false := by
  obtain ⟨t, ht⟩ := (HasPrefix_iff x _).mp h
  have h1 : ("1-0:1.8.1" : String).data = ['1', '-', '0', ':', '1', '.', '8', '.', '1'] := rfl
  have h2 : ("1-0:1.8.2" : String).data = ['1', '-', '0', ':', '1', '.', '8', '.', '2'] := rfl
  simp [HasPrefix, ht, h1, h2, List.isPrefixOf]

theorem low_not_gas (x : String) (h : HasPrefix x "1-0:1.8.1" = true) :
    HasPrefix x "0-1:24.2.1" = false := by
  obtain ⟨t, ht⟩ := (HasPrefix_iff x _).mp h
  have h1 : ("1-0:1.8.1" : String).data = ['1', '-', '0', ':', '1', '.', '8', '.', '1'] := rfl
  have h2 : ("0-1:24.2.1" : String).data =
      ['0', '-', '1', ':', '2', '4', '.', '2', '.', '1'] := rfl
  simp [HasPrefix, ht, h1, h2, List.isPrefixOf]

theorem normal_not_gas (x : String) (h : HasPrefix x "1-0:1.8.2" = true) :
    HasPrefix x "0-1:24.2.1" = false := by
  obtain ⟨t, ht⟩ := (HasPrefix_iff x _).mp h
  have h1 : ("1-0:1.8.2" : String).data = ['1', '-', '0', ':', '1', '.', '8', '.', '2'] := rfl
  have h2 : ("0-1:24.2.1" : String).data =
      ['0', '-', '1', ':', '2', '4', '.', '2', '.', '1'] := rfl
  simp [HasPrefix, ht, h1, h2, List.isPrefixOf]

theorem parseLine_low (e : Entry) (x : String) :
    (parseLine e x).ElectricityLow =
      if HasPrefix x "1-0:1.8.1" then readValue x else e.ElectricityLow := by
  unfold parseLine
  split_ifs <;> rfl

theorem parseLine_normal (e : Entry) (x : String) :
    (parseLine e x).ElectricityNormal =
      if HasPrefix x "1-0:1.8.2" then readValue x else e.ElectricityNormal := by
  unfold parseLine
  by_cases h1 : HasPrefix x "1-0:1.8.1" = true
  · simp [h1, low_not_normal x h1]
  · by_cases h2 : HasPrefix x "1-0:1.8.2" = true
    · simp [h1, h2]
    · simp only [h1, h2, Bool.false_eq_true, if_false]
      split_ifs <;> rfl

theorem parseLine_gas (e : Entry) (x : String) :
    (parseLine e x).Gas = if HasPrefix x "0-1:24.2.1" then readValue x else e.Gas := by
  unfold parseLine
  by_cases h1 : HasPrefix x "1-0:1.8.1" = true
  · simp [h1, low_not_gas x h1]
  · by_cases h2 : HasPrefix x "1-0:1.8.2" = true
    · simp [h1, h2, normal_not_gas x h2]
    · simp only [h1, h2, Bool.false_eq_true, if_false]
      split_ifs <;> rfl

theorem parseLine_timestamp (e : Entry) (x : String) :
    (parseLine e x).Timestamp = e.Timestamp := by
  unfold parseLine
  split_ifs <;> rfl

theorem parseLine_unknown (e : Entry) (x : String) (h1 : HasPrefix x "1-0:1.8.1" = false)
    (h2 : HasPrefix x "1-0:1.8.2" = false) (h3 : HasPrefix x "0-1:24.2.1" = false) :
    parseLine e x = e := by
  simp [parseLine, h1, h2, h3]

/-- Each row of the table describes what one line does to its field. -/
theorem prefixTable_step (pf : String × (Entry → ℚ)) (hpf : pf ∈ prefixTable) (e : Entry)
    (x : String) :
    pf.2 (parseLine e x) = if HasPrefix x pf.1 then readValue x else pf.2 e := by
  simp only [prefixTable, List.mem_cons, List.mem_singleton, List.not_mem_nil, or_false] at hpf
  rcases hpf with h | h | h <;> subst h
  · exact parseLine_low e x
  · exact parseLine_normal e x
  · exact parseLine_gas e x

/-- A field that every line either sets to its value (when it begins with
`P`) or leaves alone ends up with the value of the last line beginning with
`P`, or with its initial value. -/
theorem foldl_field (F : Entry → ℚ) (P : String)
    (hF : ∀ e x, F (parseLine e x) = if HasPrefix x P then readValue x else F e)
    (lines : List String) (e0 : Entry) :
    F (lines.foldl parseLine e0) =
      match (lines.filter (fun l => HasPrefix l P)).getLast? with
      | some l => readValue l
      | none => F e0 := by
  induction lines generalizing e0 with
  | nil => rfl
  | cons x xs ih =>
    rw [List.foldl_cons, ih, hF]
    by_cases hx : HasPrefix x P = true
    · have hf : (x :: xs).filter (fun l => HasPrefix l P) =
          x :: xs.filter (fun l => HasPrefix l P) := List.filter_cons_of_pos hx
      rw [hf]
      cases hfs : xs.filter (fun l => HasPrefix l P) with
      | nil => simp [hx]
      | cons y ys =>
        obtain ⟨l, hl⟩ : ∃ l, (y :: ys).getLast? = some l :=
          ⟨_, List.getLast?_eq_getLast _ (by simp)⟩
        rw [List.getLast?_cons_cons, hl]
    · have hf : (x :: xs).filter (fun l => HasPrefix l P) =
          xs.filter (fun l => HasPrefix l P) := List.filter_cons_of_neg hx
      rw [hf]
      simp [hx]

theorem parseEntry_ok (now : ℕ) (lines : List String) (h : lines ≠ []) :
    parseEntry now lines = .ok { lines.foldl parseLine ⟨0, 0, 0, 0⟩ with Timestamp := now } := by
  have : lines.length ≠ 0 := by simpa using h
  simp [parseEntry, this]

theorem parseEntry_nil (now : ℕ) : parseEntry now [] = .error "Empty lines" := rfl

theorem loop_cons (now : ℕ) (started : Bool) (block : List String) (line : String)
    (rest : List String) :
    Read.loop now started block (line :: rest) =
      if HasPrefix line "/ISK5" then Read.loop now true block rest
      else if started && HasPrefix line "!" then
        match parseEntry now block with
        | .ok entry => some entry
        | .error _ => Read.loop now false [] rest
      else if started then Read.loop now started (block ++ [line]) rest
      else Read.loop now started block rest := by
  rw [Read.loop]

theorem loop_body (now : ℕ) (body rest block : List String)
    (hbody : ∀ l ∈ body, HasPrefix l "/ISK5" = false ∧ HasPrefix l "!" = false) :
    Read.loop now true block (body ++ rest) = Read.loop now true (block ++ body) rest := by
  induction body generalizing block with
  | nil => simp
  | cons l body ih =>
    have hl := hbody l (List.mem_cons_self _ _)
    rw [List.cons_append, loop_cons, hl.1, hl.2]
    simp only [Bool.false_eq_true, if_false, Bool.and_false, if_true]
    rw [ih _ (fun x hx => hbody x (List.mem_cons_of_mem _ hx))]
    simp

theorem loop_end (now : ℕ) (block : List String) (e : String) (rest : List String)
    (he : HasPrefix e "!" = true) :
    Read.loop now true block (e :: rest) =
      match parseEntry now block with
      | .ok entry => some entry
      | .error _ => Read.loop now false [] rest := by
  rw [loop_cons, bang_not_start e he, he]
  simp

theorem loop_start (now : ℕ) (started : Bool) (block : List String) (s : String)
    (rest : List String) (hs : HasPrefix s "/ISK5" = true) :
    Read.loop now started block (s :: rest) = Read.loop now true block rest := by
  rw [loop_cons, hs]
  simp

/-- A start marker, a non-empty body of plain lines and an end marker: the
entry assembled from the body is emitted. -/
theorem Read_telegram (now : ℕ) (s e : String) (body rest : List String)
    (hs : HasPrefix s "/ISK5" = true) (he : HasPrefix e "!" = true) (hne : body ≠ [])
    (hbody : ∀ l ∈ body, HasPrefix l "/ISK5" = false ∧ HasPrefix l "!" = false) :
    Read now (s :: (body ++ e :: rest)) =
      some { body.foldl parseLine ⟨0, 0, 0, 0⟩ with Timestamp := now } := by
  rw [Read, loop_start now _ _ s _ hs, loop_body now body _ _ hbody, loop_end now _ e _ he,
    List.nil_append, parseEntry_ok now body hne]

theorem Reachable_cases (dr : dataReader) (h : Reachable dr) :
    dr = newDataReader ∨ dr = initDesc newDataReader := by
  induction h with
  | init => left; rfl
  | describe dr _ ih =>
    right
    rcases ih with h | h <;> subst h <;> rfl
  | collect dr dr2 now lines ms _ hc ih =>
    right
    rcases ih with h | h <;> subst h
    · simp only [Collect] at hc
      split at hc
      · exact absurd hc (by simp)
      · split at hc
        · exact absurd hc (by simp)
        · split at hc
          · exact absurd hc (by simp)
          · simp only [Option.some.injEq, Prod.mk.injEq] at hc
            rw [← hc.1]
            rfl
    · simp only [Collect] at hc
      split at hc
      · exact absurd hc (by simp)
      · split at hc
        · exact absurd hc (by simp)
        · split at hc
          · exact absurd hc (by simp)
          · simp only [Option.some.injEq, Prod.mk.injEq] at hc
            rw [← hc.1]
            rfl

/-- From a reachable collector state `Collect` sends the three counters of the
entry it receives. -/
theorem Collect_of_entry (dr : dataReader) (now : ℕ) (lines : List String)
    (hdr : Reachable dr) :
    Collect dr now lines = some (initDesc newDataReader,
      [⟨NewDesc "energy_electricity_total" "Electricity usage" ["type"], .CounterValue,
          ((Read now lines).getD ⟨0, 0, 0, 0⟩).ElectricityLow, ["low"]⟩,
       ⟨NewDesc "energy_electricity_total" "Electricity usage" ["type"], .CounterValue,
          ((Read now lines).getD ⟨0, 0, 0, 0⟩).ElectricityNormal, ["normal"]⟩,
       ⟨NewDesc "energy_gas_total" "Gas usage" [], .CounterValue,
          ((Read now lines).getD ⟨0, 0, 0, 0⟩).Gas, []⟩]) := by
  rcases Reachable_cases dr hdr with h | h <;> subst h <;> rfl

/-! ## The last group of a line -/

/-- A match of the tail of `reval` begins a group. -/
theorem startsGroup_of_match (t : List Char) (r : List (List Char))
    (h : matchSeq revalTail t = some r) : startsGroup t = true := by
  cases t with
  | nil => simp [revalTail, matchSeq] at h
  | cons x xs =>
    rw [revalTail, matchSeq_one_cons] at h
    by_cases hx : lparen x = true
    · rw [if_pos hx, matchSeq_mark] at h
      have hx2 : x = '(' := by simpa [lparen] using hx
      cases xs with
      | nil => simp [matchSeq] at h
      | cons y ys =>
        rw [matchSeq_plus_cons] at h
        by_cases hy : digitDot y = true
        · rw [if_pos hy] at h
          cases h2 : star digitDot (matchSeq [.mark, .plus notDigitDotParen]) ys with
          | none => rw [h2] at h; simp at h
          | some r2 =>
            obtain ⟨a, w, hys, ha, hk⟩ := star_sound _ _ _ _ h2
            rw [matchSeq_mark] at hk
            cases w with
            | nil => simp [matchSeq] at hk
            | cons z zs =>
              rw [matchSeq_plus_cons] at hk
              by_cases hz : notDigitDotParen z = true
              · have hzd : digitDot z = false := by
                  simp only [notDigitDotParen, digitDot] at hz ⊢
                  revert hz
                  cases z.isDigit <;> cases (z == '.') <;> simp
                have htw : (y :: ys).takeWhile digitDot = y :: a := by
                  rw [hys, List.takeWhile_cons_of_pos hy]
                  congr 1
                  rw [List.takeWhile_append_of_pos ha, List.takeWhile_cons_of_neg (by simp [hzd])]
                  simp
                have hdw : (y :: ys).dropWhile digitDot = z :: zs := by
                  rw [hys, List.dropWhile_cons_of_pos hy, List.dropWhile_append_of_pos ha,
                    List.dropWhile_cons_of_neg (by simp [hzd])]
                simp [startsGroup, hx2, htw, hdw, hz]
              · rw [if_neg hz] at hk
                simp at hk
        · rw [if_neg hy] at h
          simp at h
    · rw [if_neg hx] at h
      simp at h

/-- A group is matched by the tail of `reval`, which records its run of
digits and dots. -/
theorem match_of_startsGroup (t : List Char) (h : startsGroup t = true) :
    ∃ w e, t = '(' :: ((t.drop 1).takeWhile digitDot ++ w) ∧
      (t.drop 1).takeWhile digitDot ≠ [] ∧
      (∀ x ∈ (t.drop 1).takeWhile digitDot, digitDot x = true) ∧
      matchSeq revalTail t = some [(t.drop 1).takeWhile digitDot ++ w, w, e] := by
  cases t with
  | nil => simp [startsGroup] at h
  | cons c rest =>
    simp only [startsGroup, Bool.and_eq_true, beq_iff_eq, Bool.not_eq_true',
      List.isEmpty_eq_false] at h
    obtain ⟨⟨hc, hrun⟩, hafter⟩ := h
    subst hc
    have hsplit := List.takeWhile_append_dropWhile digitDot rest
    have hall : ∀ x ∈ rest.takeWhile digitDot, digitDot x = true :=
      fun x hx => List.mem_takeWhile_imp hx
    cases hdw : rest.dropWhile digitDot with
    | nil => rw [hdw] at hafter; simp at hafter
    | cons u w =>
      rw [hdw] at hafter hsplit
      simp only at hafter
      have hm := revalTail_match (rest.takeWhile digitDot) u w hrun hall hafter
      rw [hsplit] at hm
      refine ⟨u :: w, w.dropWhile notDigitDotParen, ?_, ?_, ?_, ?_⟩
      · simp only [List.drop_succ_cons, List.drop_zero]
        rw [hsplit]
      · simpa using hrun
      · simpa using hall
      · simp only [List.drop_succ_cons, List.drop_zero]
        rw [hsplit]
        exact hm

theorem noLaterGroup_fail (t : List Char) (h : noLaterGroup t = true) :
    ∀ s, s <:+ t → s ≠ t → matchSeq revalTail s = none := by
  intro s hs hne
  cases t with
  | nil =>
    have : s = [] := by simpa using hs
    exact absurd this hne
  | cons c rest =>
    rcases List.suffix_cons_iff.mp hs with h1 | h1
    · exact absurd h1 hne
    · simp only [noLaterGroup, List.tail_cons, List.all_eq_true, List.mem_tails,
        Bool.not_eq_true'] at h
      have hsg := h s h1
      cases hm : matchSeq revalTail s with
      | none => rfl
      | some r =>
        have := startsGroup_of_match s r hm
        rw [hsg] at this
        exact absurd this (by simp)

/-- A non-empty run of digits and dots is a decimal token or malformed. -/
theorem malformed_of_not_decimal (tok : String) (hall : ∀ x ∈ tok.data, digitDot x = true)
    (h : isDecimalToken tok = false) : isMalformedToken tok = true := by
  have hall2 : tok.data.all digitDot = true := by
    rw [List.all_eq_true]
    exact hall
  simp only [isDecimalToken, hall2, Bool.true_and, Bool.and_eq_false_iff,
    decide_eq_false_iff_not, not_le] at h
  simp only [isMalformedToken, Bool.or_eq_true, decide_eq_true_eq, Bool.not_eq_true']
  rcases h with h | h
  · right; exact h
  · left; omega

/-- On a line whose last group is `t`, preceded by a non-empty text without
line feed, `reval` captures the run of digits and dots of `t`. -/
theorem readValue_of_last_group (a t : String) (ha : a ≠ "") (hnl : '\n' ∉ a.data)
    (ht : startsGroup t.data = true) (hlast : noLaterGroup t.data = true) :
    capturedToken (a ++ t) = groupToken t ∧
    readValue (a ++ t) =
      if isDecimalToken (groupToken t) then tokenFloat (groupToken t) else 0 := by
  obtain ⟨w, e, _, _, hall, hm⟩ := match_of_startsGroup t.data ht
  have hane : a.data ≠ [] := fun h => ha (String.ext h)
  have hnl2 : ∀ x ∈ a.data, anyNotNL x = true := by
    intro x hx
    simp only [anyNotNL, bne_iff_ne]
    intro he
    exact hnl (he ▸ hx)
  have hs := search_last a.data t.data _ hane hnl2 hm (noLaterGroup_fail t.data hlast)
  have hdata : (a ++ t).data = a.data ++ t.data := String.data_append a t
  rw [← hdata] at hs
  have hcap : capturedToken (a ++ t) = groupToken t := by
    rw [capturedToken, FindStringSubmatch_of_search (a ++ t) _ _ w e hs]
    rfl
  refine ⟨hcap, ?_⟩
  rw [readValue_of_search (a ++ t) _ _ w e hs]
  have htok : String.mk ((t.data.drop 1).takeWhile digitDot) = groupToken t := rfl
  rw [htok]
  cases hdec : isDecimalToken (groupToken t) with
  | true =>
    rw [ParseFloat_decimalToken _ hdec, tokenFloat]
    simp only [if_true]
    cases nearestFloat64 (decimalValue (groupToken t)) <;> rfl
  | false =>
    rw [ParseFloat_malformed (groupToken t) (malformed_of_not_decimal (groupToken t) hall hdec)]
    simp

/-! ## Claims on `readValue` -/

/-- C1 (amended): for every line `p ++ "(" ++ d ++ u ++ ")"` where `p` is
non-empty, contains no `(` and does not end in a line feed, `d` is a decimal
token and `u` is a non-empty unit suffix that starts with a character that is
not a digit, a dot or `)` and contains no parenthesis, `readValue` returns the
float64 nearest to the base-10 value of `d`, and 0 when that value is beyond
the float64 range. -/
theorem readValue_single_group (p d u : String) (hp : p ≠ "") (hparen : '(' ∉ p.data)
    (hlast : p.data.getLast? ≠ some '\n') (hd : isDecimalToken d = true)
    (hu : isUnitSuffix u = true) :
    readValue (p ++ "(" ++ d ++ u ++ ")") = tokenFloat d := by
  obtain ⟨u0, w, hudata, hu0, hunp⟩ := unitSuffix_data u hu
  have hpne : p.data ≠ [] := fun h => hp (String.ext h)
  have hw : '(' ∉ u0 :: (w ++ [')']) := by
    rw [hudata] at hunp
    intro hm
    rcases List.mem_cons.mp hm with h | h
    · exact hunp (h ▸ List.mem_cons_self _ _)
    · rcases List.mem_append.mp h with h | h
      · exact hunp (List.mem_cons_of_mem _ h)
      · simp at h
  obtain ⟨hk, hfail⟩ := group_match d u0 (w ++ [')']) hd hu0 hw
  obtain ⟨start, hs⟩ := search_single p.data _ _ hpne hparen hlast hk hfail
  have hline : (p ++ "(" ++ d ++ u ++ ")").data =
      p.data ++ '(' :: (d.data ++ u0 :: (w ++ [')'])) := by
    simp [String.data_append, hudata]
  exact readValue_of_token _ start (u0 :: (w ++ [')'])) _ d hd (by rw [hline]; exact hs)

/-- Two adjacent groups `(d1 u1)(d2 u2)` after a non-empty text, no line feed
before the second group: `readValue` returns the float64 that the token of
the second group denotes. -/
theorem readValue_two_groups (p d1 u1 d2 u2 : String) (hp : p ≠ "")
    (hpnl : '\n' ∉ p.data) (hunl : '\n' ∉ u1.data)
    (hd1 : isDecimalToken d1 = true) (hd2 : isDecimalToken d2 = true)
    (_hu1 : isPlainUnit u1 = true) (hu2 : isPlainUnit u2 = true) :
    readValue (p ++ "(" ++ d1 ++ u1 ++ ")(" ++ d2 ++ u2 ++ ")") = tokenFloat d2 := by
  obtain ⟨u0, w, hudata, hu0, hunp⟩ := plainUnit_data u2 hu2
  have hpne : p.data ≠ [] := fun h => hp (String.ext h)
  have hw : '(' ∉ u0 :: (w ++ [')']) := by
    rw [hudata] at hunp
    intro hm
    rcases List.mem_cons.mp hm with h | h
    · exact hunp (h ▸ List.mem_cons_self _ _)
    · rcases List.mem_append.mp h with h | h
      · exact hunp (List.mem_cons_of_mem _ h)
      · simp at h
  obtain ⟨hk, hfail⟩ := group_match d2 u0 (w ++ [')']) hd2 hu0 hw
  have ha : p.data ++ '(' :: (d1.data ++ u1.data ++ [')']) ≠ [] := by simp [hpne]
  have hnl : ∀ x ∈ p.data ++ '(' :: (d1.data ++ u1.data ++ [')']), anyNotNL x = true := by
    intro x hx
    simp only [List.mem_append, List.mem_cons, List.mem_singleton, List.not_mem_nil,
      or_false] at hx
    rcases hx with h | h | (h | h) | h
    · simp only [anyNotNL, bne_iff_ne]
      intro he
      exact hpnl (he ▸ h)
    · rw [h]; rfl
    · exact digitDot_anyNotNL x ((decimalToken_data d1 hd1).2 x h)
    · simp only [anyNotNL, bne_iff_ne]
      intro he
      exact hunl (he ▸ h)
    · rw [h]; rfl
  have hs := search_last _ _ _ ha hnl hk hfail
  have hline : (p ++ "(" ++ d1 ++ u1 ++ ")(" ++ d2 ++ u2 ++ ")").data =
      (p.data ++ '(' :: (d1.data ++ u1.data ++ [')'])) ++
        '(' :: (d2.data ++ u0 :: (w ++ [')'])) := by
    have h2 : (")(" : String).data = [')', '('] := rfl
    simp [String.data_append, hudata, h2]
  exact readValue_of_token _ _ (u0 :: (w ++ [')'])) _ d2 hd2 (by rw [hline]; exact hs)

/-- C2 (amended): `readValue` parses the LAST group of a line, not the first.
If a line is `a ++ t` where `a` is non-empty and holds no line feed, `t`
begins with `(`, a run of one or more digits and dots and a character that is
not a digit, a dot or `)`, and no later position of `t` begins such a group,
then the token parsed is that run of digits and dots, and `readValue` returns
its value when it is a decimal token (the float64 nearest to it, 0 when it is
beyond the float64 range) and 0 when it is malformed. In particular for every
line `p ++ "(" ++ d1 ++ u1 ++ ")(" ++ d2 ++ u2 ++ ")"` with `p` non-empty,
`d1`, `d2` decimal tokens, `u1`, `u2` non-empty unit suffixes free of digits,
dots and parentheses, and no line feed in `p` and `u1`, `readValue` returns
the value of `d2`. -/
theorem readValue_last_group :
    (∀ a t : String, a ≠ "" → '\n' ∉ a.data → startsGroup t.data = true →
      noLaterGroup t.data = true →
      capturedToken (a ++ t) = groupToken t ∧
      readValue (a ++ t) =
        if isDecimalToken (groupToken t) then tokenFloat (groupToken t) else 0) ∧
    (∀ p d1 u1 d2 u2 : String, p ≠ "" → '\n' ∉ p.data → '\n' ∉ u1.data →
      isDecimalToken d1 = true → isDecimalToken d2 = true →
      isPlainUnit u1 = true → isPlainUnit u2 = true →
      readValue (p ++ "(" ++ d1 ++ u1 ++ ")(" ++ d2 ++ u2 ++ ")") = tokenFloat d2) := by
  constructor
  · intro a t ha hnl ht hlast
    exact readValue_of_last_group a t ha hnl ht hlast
  · intro p d1 u1 d2 u2 hp hpnl hunl hd1 hd2 hu1 hu2
    exact readValue_two_groups p d1 u1 d2 u2 hp hpnl hunl hd1 hd2 hu1 hu2

/-- Witness of C1 at the line of the test, `1-0:1.8.2(001427.007*kWh)`; the
value is the float64 written `1427.007`. The other line of the test gives the
float64 written `1354.81`. -/
theorem readValue_single_group_witness :
    ("1-0:1.8.2" ≠ "" ∧ '(' ∉ "1-0:1.8.2".data ∧ "1-0:1.8.2".data.getLast? ≠ some '\n' ∧
      isDecimalToken "001427.007" = true ∧ isUnitSuffix "*kWh" = true) ∧
    readValue ("1-0:1.8.2" ++ "(" ++ "001427.007" ++ "*kWh" ++ ")") = tokenFloat "001427.007" ∧
    tokenFloat "001427.007" = 3138021578835493 / 2199023255552 ∧
    nearestFloat64 (1427007 / 1000) = some (3138021578835493 / 2199023255552) ∧
    readValue "0-1:24.2.1(180630193501S)(01354.810*m3)" = 2979258696854405 / 2199023255552 ∧
    nearestFloat64 (135481 / 100) = some (2979258696854405 / 2199023255552) :=
  ⟨⟨by decide, by decide, by decide, by decide, by decide⟩,
   readValue_single_group "1-0:1.8.2" "001427.007" "*kWh" (by decide) (by decide) (by decide)
     (by decide) (by decide),
   by decide!, by decide!, by decide!, by decide!⟩

/-- Counterexample to C1 as stated. The line `"\n(1*a)"` has the required
form (`p` is a single line feed) and the value of its token is 1, but `.+`
does not match a line feed, so nothing matches and `readValue` returns 0. A
line whose token is 1 followed by 309 zeros has the required form too; its
value is beyond the float64 range, `ParseFloat` reports a range error
(no float64 is nearest) and
`readValue` returns 0. -/
theorem readValue_single_group_counterexample :
    (("\n" ≠ "" ∧ '(' ∉ "\n".data ∧ isDecimalToken "1" = true ∧ isUnitSuffix "*a" = true) ∧
      decimalValue "1" = 1 ∧ tokenFloat "1" = 1 ∧
      readValue ("\n" ++ "(" ++ "1" ++ "*a" ++ ")") = 0) ∧
    (("1-0:1.8.1" ≠ "" ∧ '(' ∉ "1-0:1.8.1".data ∧
      isDecimalToken "1000000000000000000000000000000000000000000000000000000000000000000000000000000000000000000000000000000000000000000000000000000000000000000000000000000000000000000000000000000000000000000000000000000000000000000000000000000000000000000000000000000000000000000000000000000000000000000000000000000000000000000000" = true ∧ isUnitSuffix "*kWh" = true) ∧
      decimalValue "1000000000000000000000000000000000000000000000000000000000000000000000000000000000000000000000000000000000000000000000000000000000000000000000000000000000000000000000000000000000000000000000000000000000000000000000000000000000000000000000000000000000000000000000000000000000000000000000000000000000000000000000" = 10 ^ 309 ∧
      nearestFloat64 (10 ^ 309) = none ∧
      readValue ("1-0:1.8.1" ++ "(" ++ "1000000000000000000000000000000000000000000000000000000000000000000000000000000000000000000000000000000000000000000000000000000000000000000000000000000000000000000000000000000000000000000000000000000000000000000000000000000000000000000000000000000000000000000000000000000000000000000000000000000000000000000000" ++ "*kWh" ++ ")") = 0) :=
  ⟨⟨⟨by decide, by decide, by decide, by decide⟩, by decide!, by decide!, by decide!⟩,
   ⟨⟨by decide, by decide, by decide!, by decide⟩, by decide!, by decide!, by decide!⟩⟩

/-- C3: for every line that has no parenthesized decimal, that is, no `(`
immediately followed by a digit or a dot, `readValue` returns 0; this includes
every line without any opening parenthesis and the empty line. -/
theorem readValue_no_parenthesized_decimal (line : String)
    (h : hasParenDigit line.data = false ∨ '(' ∉ line.data ∨ line = "") :
    readValue line = 0 := by
  have h2 : hasParenDigit line.data = false := by
    rcases h with h | h | h
    · exact h
    · exact hasParenDigit_of_not_mem _ h
    · subst h; rfl
  cases hs : search reval line.data with
  | none => exact readValue_of_no_match line hs
  | some res =>
    have := hasParenDigit_of_search _ res.1 res.2 hs
    rw [h2] at this
    exact absurd this (by simp)

/-- Witness of C3: a line whose parenthesized group holds no number, a line
without parenthesis, and the empty line. -/
theorem readValue_no_parenthesized_decimal_witness :
    (hasParenDigit "0-0:96.1.1(abc)".data = false ∧ readValue "0-0:96.1.1(abc)" = 0) ∧
    ('(' ∉ "1-3:0.2.8".data ∧ readValue "1-3:0.2.8" = 0) ∧ readValue "" = 0 :=
  ⟨⟨by decide, readValue_no_parenthesized_decimal "0-0:96.1.1(abc)" (Or.inl (by decide))⟩,
   ⟨by decide, readValue_no_parenthesized_decimal "1-3:0.2.8" (Or.inr (Or.inl (by decide)))⟩,
   readValue_no_parenthesized_decimal "" (Or.inr (Or.inr rfl))⟩

/-- C4: for every line whose captured numeric token is malformed (two or more
dots, or no digit at all), `readValue` returns 0; `readValue` is a total
function on strings. -/
theorem readValue_malformed_token (line : String)
    (h : isMalformedToken (capturedToken line) = true) : readValue line = 0 := by
  have hp := ParseFloat_malformed _ h
  rw [capturedToken] at hp
  simp only [readValue]
  split
  · rfl
  · rw [hp]

/-- Witness of C4 at the two example shapes. -/
theorem readValue_malformed_token_witness :
    (capturedToken "1-0:1.8.1(1.2.3*kWh)" = "1.2.3" ∧
      isMalformedToken (capturedToken "1-0:1.8.1(1.2.3*kWh)") = true ∧
      readValue "1-0:1.8.1(1.2.3*kWh)" = 0) ∧
    (capturedToken "1-0:1.8.1(.*kWh)" = "." ∧
      isMalformedToken (capturedToken "1-0:1.8.1(.*kWh)") = true ∧
      readValue "1-0:1.8.1(.*kWh)" = 0) :=
  ⟨⟨by decide, by decide, readValue_malformed_token "1-0:1.8.1(1.2.3*kWh)" (by decide)⟩,
   ⟨by decide, by decide, readValue_malformed_token "1-0:1.8.1(.*kWh)" (by decide)⟩⟩

/-- Counterexample to C2 as stated: in `a(1*b)(2*c)` both groups have the
required shape, the first token is 1, and `readValue` returns 2, the value of
the last group. A line feed changes which group is found, since `.` does not
match it: with `p` ending in a line feed after a group of its own the result
is the value of that group, 7, and with a line feed in `u1` the result is
the value of the first group. -/
theorem readValue_last_group_counterexample :
    ("a" ≠ "" ∧ isDecimalToken "1" = true ∧ isDecimalToken "2" = true ∧
      isPlainUnit "*b" = true ∧ isPlainUnit "*c" = true) ∧
    tokenFloat "1" = 1 ∧
    readValue ("a" ++ "(" ++ "1" ++ "*b" ++ ")(" ++ "2" ++ "*c" ++ ")") = 2 ∧
    ("a(7b\n" ≠ "" ∧
      readValue ("a(7b\n" ++ "(" ++ "1" ++ "*b" ++ ")(" ++ "2" ++ "*c" ++ ")") = 7) ∧
    (isPlainUnit "*\n" = true ∧
      readValue ("a" ++ "(" ++ "1" ++ "*\n" ++ ")(" ++ "2" ++ "*c" ++ ")") = 1) :=
  ⟨⟨by decide, by decide, by decide, by decide, by decide⟩, by decide!, by decide!,
   ⟨by decide, by decide!⟩, ⟨by decide, by decide!⟩⟩

/-- Witness of C2 (amended): two adjacent groups; the line of the test,
whose last group is `(01354.810*m3`; and a line whose last group holds a
malformed token, which gives 0 although two well-formed groups precede it. -/
theorem readValue_last_group_witness :
    (("0-1:24.2.1" ≠ "" ∧ '\n' ∉ "0-1:24.2.1".data ∧ '\n' ∉ "S".data ∧
      isDecimalToken "180630193501" = true ∧ isDecimalToken "01354" = true ∧
      isPlainUnit "S" = true ∧ isPlainUnit "*m" = true) ∧
     readValue ("0-1:24.2.1" ++ "(" ++ "180630193501" ++ "S" ++ ")(" ++ "01354" ++ "*m" ++ ")")
       = tokenFloat "01354" ∧
     tokenFloat "01354" = 1354) ∧
    (("0-1:24.2.1(180630193501S)" ≠ "" ∧ '\n' ∉ "0-1:24.2.1(180630193501S)".data ∧
      startsGroup "(01354.810*m3)".data = true ∧ noLaterGroup "(01354.810*m3)".data = true) ∧
     (capturedToken ("0-1:24.2.1(180630193501S)" ++ "(01354.810*m3)") =
        groupToken "(01354.810*m3)" ∧
      readValue ("0-1:24.2.1(180630193501S)" ++ "(01354.810*m3)") =
        if isDecimalToken (groupToken "(01354.810*m3)") then
          tokenFloat (groupToken "(01354.810*m3)") else 0) ∧
     groupToken "(01354.810*m3)" = "01354.810" ∧
     readValue "0-1:24.2.1(180630193501S)(01354.810*m3)" = 2979258696854405 / 2199023255552) ∧
    (("a(1*b)(2*c)" ≠ "" ∧ '\n' ∉ "a(1*b)(2*c)".data ∧
      startsGroup "(1.2.3*d)".data = true ∧ noLaterGroup "(1.2.3*d)".data = true) ∧
     (capturedToken ("a(1*b)(2*c)" ++ "(1.2.3*d)") = groupToken "(1.2.3*d)" ∧
      readValue ("a(1*b)(2*c)" ++ "(1.2.3*d)") =
        if isDecimalToken (groupToken "(1.2.3*d)") then
          tokenFloat (groupToken "(1.2.3*d)") else 0) ∧
     groupToken "(1.2.3*d)" = "1.2.3" ∧ isDecimalToken "1.2.3" = false ∧
     readValue "a(1*b)(2*c)(1.2.3*d)" = 0) :=
  ⟨⟨⟨by decide, by decide, by decide, by decide, by decide, by decide, by decide⟩,
    readValue_last_group.2 "0-1:24.2.1" "180630193501" "S" "01354" "*m" (by decide) (by decide)
      (by decide) (by decide) (by decide) (by decide) (by decide),
    by decide!⟩,
   ⟨⟨by decide, by decide, by decide, by decide⟩,
    readValue_last_group.1 "0-1:24.2.1(180630193501S)" "(01354.810*m3)" (by decide) (by decide)
      (by decide) (by decide),
    by decide, by decide!⟩,
   ⟨⟨by decide, by decide, by decide, by decide⟩,
    readValue_last_group.1 "a(1*b)(2*c)" "(1.2.3*d)" (by decide) (by decide) (by decide)
      (by decide),
    by decide, by decide, by decide!⟩⟩

/-! ## Claims on parseEntry, the framing loop and Collect -/

/-- C5: for every line `s` beginning with `/ISK5`, every line `e` beginning
with `!` and every non-empty body of lines none of which begins with `/ISK5`
or `!`, `frame ([s] ++ body ++ [e])` emits the entry that `parseEntry body`
returns. -/
theorem frame_telegram (now : ℕ) (s e : String) (body : List String)
    (hs : HasPrefix s "/ISK5" = true) (he : HasPrefix e "!" = true) (hne : body ≠ [])
    (hbody : ∀ l ∈ body, HasPrefix l "/ISK5" = false ∧ HasPrefix l "!" = false) :
    ∃ r, parseEntry now body = .ok r ∧ frame now ([s] ++ body ++ [e]) = some r := by
  refine ⟨_, parseEntry_ok now body hne, ?_⟩
  have h := Read_telegram now s e body [] hs he hne hbody
  simpa [frame] using h

/-- Witness of C5 at the telegram of the specification; the three fields are
the float64 values written `123.4`, `567.8` and `9.0`. -/
theorem frame_telegram_witness :
    (HasPrefix "/ISK5..." "/ISK5" = true ∧ HasPrefix "!..." "!" = true ∧
      ["1-0:1.8.1(123.4*kWh)", "1-0:1.8.2(567.8*kWh)", "0-1:24.2.1(9.0*m3)"] ≠ [] ∧
      ∀ l ∈ ["1-0:1.8.1(123.4*kWh)", "1-0:1.8.2(567.8*kWh)", "0-1:24.2.1(9.0*m3)"],
        HasPrefix l "/ISK5" = false ∧ HasPrefix l "!" = false) ∧
    (∃ r, parseEntry 7 ["1-0:1.8.1(123.4*kWh)", "1-0:1.8.2(567.8*kWh)", "0-1:24.2.1(9.0*m3)"]
        = .ok r ∧
      frame 7 (["/ISK5..."] ++
        ["1-0:1.8.1(123.4*kWh)", "1-0:1.8.2(567.8*kWh)", "0-1:24.2.1(9.0*m3)"] ++ ["!..."])
        = some r) ∧
    frame 7 ["/ISK5...", "1-0:1.8.1(123.4*kWh)", "1-0:1.8.2(567.8*kWh)", "0-1:24.2.1(9.0*m3)",
        "!..."] =
      some ⟨7, 4341751515761869 / 35184372088832, 2497210809004851 / 4398046511104, 9⟩ ∧
    nearestFloat64 (1234 / 10) = some (4341751515761869 / 35184372088832) ∧
    nearestFloat64 (5678 / 10) = some (2497210809004851 / 4398046511104) ∧
    nearestFloat64 9 = some 9 :=
  ⟨⟨by decide, by decide, by decide, by decide⟩,
   frame_telegram 7 "/ISK5..." "!..."
     ["1-0:1.8.1(123.4*kWh)", "1-0:1.8.2(567.8*kWh)", "0-1:24.2.1(9.0*m3)"]
     (by decide) (by decide) (by decide) (by decide),
   by decide!, by decide!, by decide!, by decide!⟩

/-- C6: for every line `s` beginning with `/ISK5`, every line `e` beginning
with `!` and every following line sequence `rest`,
`frame ([s, e] ++ rest) = frame rest`: the empty block yields no entry, the
loop is back in its initial state and the lines that follow are framed as
usual. -/
theorem frame_empty_block (now : ℕ) (s e : String) (rest : List String)
    (hs : HasPrefix s "/ISK5" = true) (he : HasPrefix e "!" = true) :
    frame now ([s, e] ++ rest) = frame now rest := by
  show Read.loop now false [] (s :: e :: rest) = Read.loop now false [] rest
  rw [loop_start now _ _ s _ hs, loop_end now _ e _ he, parseEntry_nil]

/-- Witness of C6: an empty block alone yields nothing, and a well-formed
telegram after it is still emitted. -/
theorem frame_empty_block_witness :
    (HasPrefix "/ISK5..." "/ISK5" = true ∧ HasPrefix "!..." "!" = true) ∧
    frame 7 (["/ISK5...", "!..."] ++ []) = frame 7 [] ∧
    frame 7 (["/ISK5...", "!..."] ++ []) = none ∧
    frame 7 (["/ISK5...", "!..."] ++ ["/ISK5...", "1-0:1.8.1(2.5*kWh)", "!..."]) =
      frame 7 ["/ISK5...", "1-0:1.8.1(2.5*kWh)", "!..."] ∧
    frame 7 (["/ISK5...", "!..."] ++ ["/ISK5...", "1-0:1.8.1(2.5*kWh)", "!..."]) =
      some ⟨7, 5 / 2, 0, 0⟩ :=
  ⟨⟨by decide, by decide⟩,
   frame_empty_block 7 "/ISK5..." "!..." [] (by decide) (by decide),
   by decide!,
   frame_empty_block 7 "/ISK5..." "!..." ["/ISK5...", "1-0:1.8.1(2.5*kWh)", "!..."]
     (by decide) (by decide),
   by decide!⟩

/-- C7: `parseEntry` returns an error if and only if `lines` is empty; for
every non-empty list of lines, whatever their content, it returns an entry and
no error. -/
theorem parseEntry_error_iff (now : ℕ) :
    (∀ lines, (∃ msg, parseEntry now lines = .error msg) ↔ lines = []) ∧
    (∀ l ls, ∃ r, parseEntry now (l :: ls) = .ok r) := by
  refine ⟨fun lines => ⟨?_, ?_⟩, fun l ls => ⟨_, parseEntry_ok now (l :: ls) (by simp)⟩⟩
  · rintro ⟨msg, hmsg⟩
    by_contra hne
    rw [parseEntry_ok now lines hne] at hmsg
    exact absurd hmsg (by simp)
  · rintro rfl
    exact ⟨_, parseEntry_nil now⟩

/-- C8: missing data reads as zero. For every non-empty block and each row
`(P, field)` of the prefix table: if no line of the block begins with `P` the
field of `parseEntry block` is 0, and if exactly one line of the block begins
with `P` the field equals `readValue` of that line. -/
theorem parseEntry_missing_or_single (now : ℕ) (block : List String) (hne : block ≠ []) :
    ∃ r, parseEntry now block = .ok r ∧ ∀ pf ∈ prefixTable,
      ((∀ l ∈ block, HasPrefix l pf.1 = false) → pf.2 r = 0) ∧
      (∀ a l b, block = a ++ l :: b → HasPrefix l pf.1 = true →
        (∀ x ∈ a, HasPrefix x pf.1 = false) → (∀ x ∈ b, HasPrefix x pf.1 = false) →
        pf.2 r = readValue l) := by
  refine ⟨_, parseEntry_ok now block hne, ?_⟩
  intro pf hpf
  have hts : ∀ e : Entry, pf.2 { e with Timestamp := now } = pf.2 e := by
    intro e
    simp only [prefixTable, List.mem_cons, List.mem_singleton, List.not_mem_nil,
      or_false] at hpf
    rcases hpf with h | h | h <;> subst h <;> rfl
  have hzero : pf.2 ⟨0, 0, 0, 0⟩ = 0 := by
    simp only [prefixTable, List.mem_cons, List.mem_singleton, List.not_mem_nil,
      or_false] at hpf
    rcases hpf with h | h | h <;> subst h <;> rfl
  have hfold := foldl_field pf.2 pf.1 (prefixTable_step pf hpf) block ⟨0, 0, 0, 0⟩
  rw [hts, hfold]
  constructor
  · intro hnone
    have : block.filter (fun l => HasPrefix l pf.1) = [] := by
      rw [List.filter_eq_nil_iff]
      intro l hl
      simp [hnone l hl]
    rw [this]
    exact hzero
  · intro a l b hblock hl ha hb
    have hfa : a.filter (fun l => HasPrefix l pf.1) = [] := by
      rw [List.filter_eq_nil_iff]
      intro x hx
      simp [ha x hx]
    have hfb : b.filter (fun l => HasPrefix l pf.1) = [] := by
      rw [List.filter_eq_nil_iff]
      intro x hx
      simp [hb x hx]
    have : block.filter (fun l => HasPrefix l pf.1) = [l] := by
      rw [hblock, List.filter_append, hfa, List.nil_append]
      have h2 : (l :: b).filter (fun l => HasPrefix l pf.1) =
          l :: b.filter (fun l => HasPrefix l pf.1) := List.filter_cons_of_pos hl
      rw [h2, hfb]
    rw [this]
    rfl

/-- Witness of C8 at a block with one low-tariff line and no other known
line. -/
theorem parseEntry_missing_or_single_witness :
    ["1-0:1.8.1(2.5*kWh)", "0-0:96.1.1(4530)"] ≠ [] ∧
    ∃ r, parseEntry 7 ["1-0:1.8.1(2.5*kWh)", "0-0:96.1.1(4530)"] = .ok r ∧
      ∀ pf ∈ prefixTable,
        ((∀ l ∈ ["1-0:1.8.1(2.5*kWh)", "0-0:96.1.1(4530)"], HasPrefix l pf.1 = false) →
          pf.2 r = 0) ∧
        (∀ a l b, ["1-0:1.8.1(2.5*kWh)", "0-0:96.1.1(4530)"] = a ++ l :: b →
          HasPrefix l pf.1 = true →
          (∀ x ∈ a, HasPrefix x pf.1 = false) → (∀ x ∈ b, HasPrefix x pf.1 = false) →
          pf.2 r = readValue l) :=
  ⟨by decide, parseEntry_missing_or_single 7 ["1-0:1.8.1(2.5*kWh)", "0-0:96.1.1(4530)"]
    (by decide)⟩

/-- C9: unknown-prefix lines do not affect any field. For every line `x` that
begins with none of the three prefixes and all line lists `a`, `b` with
`a ++ b` non-empty, `parseEntry (a ++ [x] ++ b)` and `parseEntry (a ++ b)`
return the same entry. -/
theorem parseEntry_unknown_prefix (now : ℕ) (x : String) (a b : List String)
    (h1 : HasPrefix x "1-0:1.8.1" = false) (h2 : HasPrefix x "1-0:1.8.2" = false)
    (h3 : HasPrefix x "0-1:24.2.1" = false) (hab : a ++ b ≠ []) :
    parseEntry now (a ++ [x] ++ b) = parseEntry now (a ++ b) := by
  rw [parseEntry_ok now (a ++ [x] ++ b) (by simp), parseEntry_ok now (a ++ b) hab]
  simp only [List.foldl_append, List.foldl_cons, List.foldl_nil]
  rw [parseLine_unknown _ x h1 h2 h3]

/-- Witness of C9: a line with an unknown prefix, although it carries a
parsable value, changes nothing. -/
theorem parseEntry_unknown_prefix_witness :
    (HasPrefix "1-0:2.8.1(7.5*kWh)" "1-0:1.8.1" = false ∧
      HasPrefix "1-0:2.8.1(7.5*kWh)" "1-0:1.8.2" = false ∧
      HasPrefix "1-0:2.8.1(7.5*kWh)" "0-1:24.2.1" = false ∧
      ["1-0:1.8.1(2.5*kWh)"] ++ ["0-1:24.2.1(9.0*m3)"] ≠ []) ∧
    parseEntry 7 (["1-0:1.8.1(2.5*kWh)"] ++ ["1-0:2.8.1(7.5*kWh)"] ++ ["0-1:24.2.1(9.0*m3)"]) =
      parseEntry 7 (["1-0:1.8.1(2.5*kWh)"] ++ ["0-1:24.2.1(9.0*m3)"]) ∧
    readValue "1-0:2.8.1(7.5*kWh)" = 15 / 2 :=
  ⟨⟨by decide, by decide, by decide, by decide⟩,
   parseEntry_unknown_prefix 7 "1-0:2.8.1(7.5*kWh)" ["1-0:1.8.1(2.5*kWh)"]
     ["0-1:24.2.1(9.0*m3)"] (by decide) (by decide) (by decide) (by decide),
   by decide!⟩

/-- C10: for every entry `r` produced by the framer, `Collect` sends exactly
three metrics, in this order: `energy_electricity_total` with label
`type="low"` and value `r.ElectricityLow`, `energy_electricity_total` with
label `type="normal"` and value `r.ElectricityNormal`, and `energy_gas_total`
with no labels and value `r.Gas`, each of counter type. -/
theorem Collect_samples (dr : dataReader) (now : ℕ) (lines : List String) (r : Entry)
    (hdr : Reachable dr) (hr : frame now lines = some r) :
    ∃ dr2, Collect dr now lines = some (dr2,
      [⟨⟨"energy_electricity_total", "Electricity usage", ["type"]⟩, .CounterValue,
          r.ElectricityLow, ["low"]⟩,
       ⟨⟨"energy_electricity_total", "Electricity usage", ["type"]⟩, .CounterValue,
          r.ElectricityNormal, ["normal"]⟩,
       ⟨⟨"energy_gas_total", "Gas usage", []⟩, .CounterValue, r.Gas, []⟩]) := by
  have h := Collect_of_entry dr now lines hdr
  have hr2 : Read now lines = some r := hr
  rw [hr2] at h
  exact ⟨_, h⟩

/-- Witness of C10: a stream that emits exactly one well-formed telegram; the
three values are the three fields parsed from its body. -/
theorem Collect_samples_witness :
    (Reachable newDataReader ∧
      frame 7 ["/ISK5...", "1-0:1.8.1(123.4*kWh)", "1-0:1.8.2(567.8*kWh)",
        "0-1:24.2.1(9.0*m3)", "!..."] =
        some ⟨7, 4341751515761869 / 35184372088832, 2497210809004851 / 4398046511104, 9⟩) ∧
    (∃ dr2, Collect newDataReader 7 ["/ISK5...", "1-0:1.8.1(123.4*kWh)",
        "1-0:1.8.2(567.8*kWh)", "0-1:24.2.1(9.0*m3)", "!..."] = some (dr2,
      [⟨⟨"energy_electricity_total", "Electricity usage", ["type"]⟩, .CounterValue,
          4341751515761869 / 35184372088832, ["low"]⟩,
       ⟨⟨"energy_electricity_total", "Electricity usage", ["type"]⟩, .CounterValue,
          2497210809004851 / 4398046511104, ["normal"]⟩,
       ⟨⟨"energy_gas_total", "Gas usage", []⟩, .CounterValue, 9, []⟩])) ∧
    (parseEntry 7 ["1-0:1.8.1(123.4*kWh)", "1-0:1.8.2(567.8*kWh)",
        "0-1:24.2.1(9.0*m3)"]).toOption =
      some ⟨7, 4341751515761869 / 35184372088832, 2497210809004851 / 4398046511104, 9⟩ :=
  ⟨⟨Reachable.init, by decide!⟩,
   Collect_samples newDataReader 7
     ["/ISK5...", "1-0:1.8.1(123.4*kWh)", "1-0:1.8.2(567.8*kWh)", "0-1:24.2.1(9.0*m3)", "!..."]
     ⟨7, 4341751515761869 / 35184372088832, 2497210809004851 / 4398046511104, 9⟩
     Reachable.init (by decide!),
   by decide!⟩

/-! ## The framing loop: prefixes, suffixes and what an emitted entry comes from -/

theorem start_not_bang (x : String) (h : HasPrefix x "/ISK5" = true) :
    HasPrefix x "!" = false := by
  cases hb : HasPrefix x "!" with
  | false => rfl
  | true =>
    have := bang_not_start x hb
    rw [h] at this
    exact absurd this (by simp)

theorem loop_plain (now : ℕ) (block : List String) (x : String) (rest : List String)
    (h1 : HasPrefix x "/ISK5" = false) (h2 : HasPrefix x "!" = false) :
    Read.loop now true block (x :: rest) = Read.loop now true (block ++ [x]) rest := by
  rw [loop_cons, h1, h2]
  simp

theorem loop_idle (now : ℕ) (block : List String) (x : String) (rest : List String)
    (h1 : HasPrefix x "/ISK5" = false) :
    Read.loop now false block (x :: rest) = Read.loop now false block rest := by
  rw [loop_cons, h1]
  simp

theorem loop_idle_skip (now : ℕ) (block pre ls : List String)
    (hpre : ∀ l ∈ pre, HasPrefix l "/ISK5" = false) :
    Read.loop now false block (pre ++ ls) = Read.loop now false block ls := by
  induction pre with
  | nil => rfl
  | cons x pre ih =>
    rw [List.cons_append, loop_idle now block x _ (hpre x (List.mem_cons_self _ _))]
    exact ih (fun l hl => hpre l (List.mem_cons_of_mem _ hl))

theorem loop_append (now : ℕ) (xs ys : List String) (started : Bool) (block : List String)
    (r : Entry) (h : Read.loop now started block xs = some r) :
    Read.loop now started block (xs ++ ys) = some r := by
  induction xs generalizing started block with
  | nil => simp [Read.loop] at h
  | cons x xs ih =>
    rw [loop_cons] at h
    rw [List.cons_append, loop_cons]
    by_cases h1 : HasPrefix x "/ISK5" = true
    · rw [if_pos h1] at h ⊢
      exact ih _ _ h
    · rw [if_neg h1] at h ⊢
      by_cases h2 : (started && HasPrefix x "!") = true
      · rw [if_pos h2] at h ⊢
        cases hp : parseEntry now block with
        | ok entry =>
          rw [hp] at h
          exact h
        | error msg =>
          rw [hp] at h
          exact ih _ _ h
      · rw [if_neg h2] at h ⊢
        by_cases h3 : started = true
        · rw [if_pos h3] at h ⊢
          exact ih _ _ h
        · rw [if_neg h3] at h ⊢
          exact ih _ _ h

theorem loop_step (now : ℕ) (started : Bool) (block : List String) (line : String)
    (rest : List String) :
    Read.loop now started block (line :: rest) =
      match Read.step now started block line with
      | .inl entry => some entry
      | .inr (s, b) => Read.loop now s b rest := by
  rw [loop_cons, Read.step]
  by_cases h1 : HasPrefix line "/ISK5" = true
  · simp [h1]
  · cases started
    · simp [h1]
    · by_cases h2 : HasPrefix line "!" = true
      · simp only [h1, h2, Bool.and_self, if_true, Bool.false_eq_true, if_false]
        cases parseEntry now block <;> rfl
      · simp [h1, h2]

theorem Framed_cons (now : ℕ) (x : String) (ls : List String) (r : Entry)
    (h : Framed now ls r) : Framed now (x :: ls) r := by
  obtain ⟨pre, s, mid, e, post, hls, hs, he, hmid, hp⟩ := h
  exact ⟨x :: pre, s, mid, e, post, by rw [hls]; rfl, hs, he, hmid, hp⟩

/-- What the loop emits, from its initial state and from the collecting
state with any block. -/
theorem loop_some (now : ℕ) (ls : List String) :
    (∀ r, Read.loop now false [] ls = some r → Framed now ls r) ∧
    (∀ block r, Read.loop now true block ls = some r →
      (∃ mid e post, ls = mid ++ e :: post ∧ HasPrefix e "!" = true ∧
        (∀ l ∈ mid, HasPrefix l "!" = false) ∧
        parseEntry now (block ++ mid.filter (fun l => !HasPrefix l "/ISK5")) = .ok r) ∨
      Framed now ls r) := by
  induction ls with
  | nil =>
    constructor
    · intro r h
      simp [Read.loop] at h
    · intro block r h
      simp [Read.loop] at h
  | cons x rest ih =>
    obtain ⟨ih1, ih2⟩ := ih
    constructor
    · intro r h
      by_cases h1 : HasPrefix x "/ISK5" = true
      · rw [loop_start now _ _ x _ h1] at h
        rcases ih2 [] r h with ⟨mid, e, post, hrest, he, hmid, hp⟩ | hf
        · exact ⟨[], x, mid, e, post, by rw [hrest]; rfl, h1, he, hmid, by simpa using hp⟩
        · exact Framed_cons now x rest r hf
      · rw [loop_idle now _ x _ (by simpa using h1)] at h
        exact Framed_cons now x rest r (ih1 r h)
    · intro block r h
      by_cases h1 : HasPrefix x "/ISK5" = true
      · rw [loop_start now _ _ x _ h1] at h
        rcases ih2 block r h with ⟨mid, e, post, hrest, he, hmid, hp⟩ | hf
        · left
          refine ⟨x :: mid, e, post, by rw [hrest]; rfl, he, ?_, ?_⟩
          · intro l hl
            rcases List.mem_cons.mp hl with hl | hl
            · rw [hl]; exact start_not_bang x h1
            · exact hmid l hl
          · have hf : (x :: mid).filter (fun l => !HasPrefix l "/ISK5") =
                mid.filter (fun l => !HasPrefix l "/ISK5") :=
              List.filter_cons_of_neg (by simp [h1])
            rw [hf]
            exact hp
        · right
          exact Framed_cons now x rest r hf
      · have h1f : HasPrefix x "/ISK5" = false := by simpa using h1
        by_cases h2 : HasPrefix x "!" = true
        · rw [loop_end now _ x _ h2] at h
          cases hp : parseEntry now block with
          | ok entry =>
            rw [hp] at h
            have hr : entry = r := by simpa using h
            subst hr
            left
            exact ⟨[], x, rest, rfl, h2, by simp, by simpa using hp⟩
          | error msg =>
            rw [hp] at h
            right
            exact Framed_cons now x rest r (ih1 r h)
        · have h2f : HasPrefix x "!" = false := by simpa using h2
          rw [loop_plain now _ x _ h1f h2f] at h
          rcases ih2 (block ++ [x]) r h with ⟨mid, e, post, hrest, he, hmid, hp⟩ | hf
          · left
            refine ⟨x :: mid, e, post, by rw [hrest]; rfl, he, ?_, ?_⟩
            · intro l hl
              rcases List.mem_cons.mp hl with hl | hl
              · rw [hl]; exact h2f
              · exact hmid l hl
            · have hf : (x :: mid).filter (fun l => !HasPrefix l "/ISK5") =
                  x :: mid.filter (fun l => !HasPrefix l "/ISK5") :=
                List.filter_cons_of_pos (by simp [h1f])
              rw [hf]
              simpa using hp
          · right
            exact Framed_cons now x rest r hf

theorem parseEntry_ok_ne_nil (now : ℕ) (lines : List String) (r : Entry)
    (h : parseEntry now lines = .ok r) : lines ≠ [] := by
  intro he
  subst he
  rw [parseEntry_nil] at h
  exact absurd h (by simp)

/-- In the collecting or idle state reached from the initial one, an idle
loop holds an empty block. -/
theorem stateAfter_idle (now : ℕ) (lines : List String) (started : Bool)
    (block : List String) (s : Bool) (b : List String)
    (hinv : started = false → block = [])
    (h : Read.stateAfter now started block lines = some (s, b)) :
    s = false → b = [] := by
  induction lines generalizing started block with
  | nil =>
    simp only [Read.stateAfter, Option.some.injEq, Prod.mk.injEq] at h
    rw [← h.1, ← h.2]
    exact hinv
  | cons x rest ih =>
    rw [Read.stateAfter] at h
    cases hstep : Read.step now started block x with
    | inl entry => rw [hstep] at h; simp at h
    | inr sb =>
      obtain ⟨s2, b2⟩ := sb
      rw [hstep] at h
      refine ih s2 b2 ?_ h
      intro hs2
      rw [Read.step] at hstep
      by_cases h1 : HasPrefix x "/ISK5" = true
      · simp only [h1, if_true, Sum.inr.injEq, Prod.mk.injEq] at hstep
        obtain ⟨ha, _⟩ := hstep
        subst ha
        exact absurd hs2 (by simp)
      · cases started
        · simp only [h1, Bool.false_eq_true, if_false, Bool.false_and, Sum.inr.injEq,
            Prod.mk.injEq] at hstep
          obtain ⟨_, hb⟩ := hstep
          subst hb
          exact hinv rfl
        · by_cases h2 : HasPrefix x "!" = true
          · simp only [h1, h2, Bool.and_self, if_true, Bool.false_eq_true, if_false] at hstep
            cases hp : parseEntry now block with
            | ok entry => rw [hp] at hstep; simp at hstep
            | error msg =>
              rw [hp] at hstep
              simp only [Sum.inr.injEq, Prod.mk.injEq] at hstep
              obtain ⟨_, hb⟩ := hstep
              subst hb
              rfl
          · simp only [h1, h2, Bool.false_eq_true, if_false, Bool.and_false, if_true,
              Sum.inr.injEq, Prod.mk.injEq] at hstep
            obtain ⟨ha, _⟩ := hstep
            subst ha
            exact absurd hs2 (by simp)

/-! ## Fields are never negative -/

theorem nearestFloat64_nonneg (q v : ℚ) (h : nearestFloat64 q = some v) : 0 ≤ v := by
  unfold nearestFloat64 at h
  dsimp only at h
  split_ifs at h <;> cases h <;>
    first
    | exact le_refl _
    | exact Nat.cast_nonneg _
    | exact div_nonneg (Nat.cast_nonneg _) (Nat.cast_nonneg _)

theorem ParseFloat_nonneg (s : String) (v : ℚ) (h : ParseFloat s = .ok v) : 0 ≤ v := by
  unfold ParseFloat at h
  split at h
  · exact absurd h (by simp)
  · split at h
    · exact absurd h (by simp)
    · rename_i v2 hv
      have : v2 = v := by simpa using h
      rw [← this]
      exact nearestFloat64_nonneg _ _ hv

theorem readValue_nonneg (line : String) : 0 ≤ readValue line := by
  unfold readValue
  simp only
  split
  · exact le_refl 0
  · split
    · exact le_refl 0
    · rename_i v hv
      exact ParseFloat_nonneg _ _ hv

theorem parseLine_nonneg (e : Entry) (x : String) (h : e.nonneg) : (parseLine e x).nonneg := by
  obtain ⟨h1, h2, h3⟩ := h
  unfold parseLine
  split_ifs
  · exact ⟨readValue_nonneg x, h2, h3⟩
  · exact ⟨h1, readValue_nonneg x, h3⟩
  · exact ⟨h1, h2, readValue_nonneg x⟩
  · exact ⟨h1, h2, h3⟩

theorem foldl_nonneg (lines : List String) (e : Entry) (h : e.nonneg) :
    (lines.foldl parseLine e).nonneg := by
  induction lines generalizing e with
  | nil => exact h
  | cons x xs ih => exact ih _ (parseLine_nonneg e x h)

theorem parseEntry_nonneg (now : ℕ) (lines : List String) (r : Entry)
    (h : parseEntry now lines = .ok r) : r.nonneg := by
  have hne := parseEntry_ok_ne_nil now lines r h
  rw [parseEntry_ok now lines hne] at h
  have hr : r = { lines.foldl parseLine ⟨0, 0, 0, 0⟩ with Timestamp := now } := by
    simpa using h.symm
  rw [hr]
  exact foldl_nonneg lines ⟨0, 0, 0, 0⟩ ⟨le_refl 0, le_refl 0, le_refl 0⟩

theorem Read_nonneg (now : ℕ) (lines : List String) (r : Entry)
    (h : Read now lines = some r) : r.nonneg := by
  obtain ⟨pre, s, mid, e, post, _, _, _, _, hp⟩ := (loop_some now lines).1 r h
  exact parseEntry_nonneg now _ r hp

/-! ## Collect and the session -/

theorem MustNewConstMetric_value (d : Option Desc) (vt : ValueType) (v : ℚ)
    (ls : List String) (m : Metric) (h : MustNewConstMetric d vt v ls = some m) :
    m.value = v := by
  unfold MustNewConstMetric at h
  split at h
  · exact absurd h (by simp)
  · split at h
    · cases h
      rfl
    · exact absurd h (by simp)

theorem initDesc_fixed (dr : dataReader) (h1 : dr.electricityDesc ≠ none)
    (h2 : dr.gasDesc ≠ none) : initDesc dr = dr := by
  cases dr with
  | mk e g => simp_all [initDesc]

theorem initDesc_idem (dr : dataReader) : initDesc (initDesc dr) = initDesc dr := by
  cases dr with
  | mk e g => cases e <;> cases g <;> simp [initDesc]

theorem getElem?_length_append (a : List String) (x : String) (b : List String) :
    (a ++ x :: b)[a.length]? = some x := by
  rw [List.getElem?_append_right (le_refl _)]
  simp

/-- The handle is released when the first goroutine returns, and only then:
the number of calls of `s.Close()` is 1 once it has returned and 0 before. -/
theorem Session.closes_inv (now : ℕ) (sched : List Bool) (σ0 σ : Session)
    (h0 : σ0.closes = if σ0.pump = .done then 1 else 0)
    (h : Session.run now σ0 sched = some σ) :
    σ.closes = if σ.pump = .done then 1 else 0 := by
  induction sched generalizing σ0 with
  | nil =>
    simp only [Session.run, Option.some.injEq] at h
    rw [← h]
    exact h0
  | cons who rest ih =>
    rw [Session.run] at h
    cases hs : Session.step now σ0 who with
    | none => rw [hs] at h; simp at h
    | some σ1 =>
      rw [hs] at h
      refine ih σ1 ?_ h
      cases who
      · simp only [Session.step, Bool.false_eq_true, if_false, framerStep] at hs
        split at hs
        · split at hs
          · split at hs <;> cases hs <;> exact h0
          · split at hs
            · cases hs; exact h0
            · exact absurd hs (by simp)
        · cases hs; exact h0
        · exact absurd hs (by simp)
      · simp only [Session.step, if_true, pumpStep] at hs
        split at hs
        · rename_i hp
          rw [hp] at h0
          simp only [reduceCtorEq, if_false] at h0
          split at hs
          · cases hs; simp [h0]
          · split at hs <;> cases hs <;> simp [h0]
        · rename_i x hp
          rw [hp] at h0
          simp only [reduceCtorEq, if_false] at h0
          split at hs
          · cases hs; simp [h0]
          · exact absurd hs (by simp)
        · exact absurd hs (by simp)

/-! ## Claims on the end of the stream, the framing invariants and the descriptors -/

/-- What `Collect` does when the line sequence ends before the framing loop
has emitted an entry: it receives the zero `Entry` from the closed channel and
sends the three counters with value 0. -/
theorem Collect_of_no_entry (dr : dataReader) (now : ℕ) (lines : List String)
    (hdr : Reachable dr) (h : frame now lines = none) :
    ∃ dr2, Collect dr now lines = some (dr2,
      [⟨⟨"energy_electricity_total", "Electricity usage", ["type"]⟩, .CounterValue, 0, ["low"]⟩,
       ⟨⟨"energy_electricity_total", "Electricity usage", ["type"]⟩, .CounterValue, 0,
          ["normal"]⟩,
       ⟨⟨"energy_gas_total", "Gas usage", []⟩, .CounterValue, 0, []⟩]) := by
  have hc := Collect_of_entry dr now lines hdr
  have hr : Read now lines = none := h
  rw [hr] at hc
  exact ⟨_, hc⟩

/-- C11, the failing inputs: on a stream that ends at once, and on one that
ends inside a telegram, the framing loop emits nothing, and `Collect` sends
three metrics all the same: the three counters, each with value 0. -/
theorem Collect_without_reading :
    (frame 7 [] = none ∧
      (Collect newDataReader 7 []).map (fun p => p.2.length) = some 3) ∧
    (frame 7 ["/ISK5...", "1-0:1.8.1(123.4*kWh)"] = none ∧
      (Collect newDataReader 7 ["/ISK5...", "1-0:1.8.1(123.4*kWh)"]).map (fun p => p.2) =
        some
          [⟨⟨"energy_electricity_total", "Electricity usage", ["type"]⟩, .CounterValue, 0,
              ["low"]⟩,
           ⟨⟨"energy_electricity_total", "Electricity usage", ["type"]⟩, .CounterValue, 0,
              ["normal"]⟩,
           ⟨⟨"energy_gas_total", "Gas usage", []⟩, .CounterValue, 0, []⟩]) :=
  ⟨⟨by decide, by decide!⟩, ⟨by decide, by decide!⟩⟩

/-- C12: an entry comes only from a fully framed telegram. If `frame ls`
emits an entry, then `ls` holds a line beginning with `/ISK5`, later a line
beginning with neither marker and later a line beginning with `!` (at indices
`i < k < j`), and the block the entry is assembled from consists of the lines
strictly between the two markers that do not begin with `/ISK5`, none of
which begins with `!` either. Consequently, when no end-marker line occurs
after a start-marker line, `frame ls` emits nothing. -/
theorem frame_only_framed (now : ℕ) (ls : List String) :
    (∀ r, frame now ls = some r →
      ∃ pre s mid e post, ls = pre ++ s :: (mid ++ e :: post) ∧
        HasPrefix s "/ISK5" = true ∧ HasPrefix e "!" = true ∧
        (∀ l ∈ mid, HasPrefix l "!" = false) ∧
        parseEntry now (mid.filter (fun l => !HasPrefix l "/ISK5")) = .ok r ∧
        ∃ (i k j : ℕ) (m : String), i < k ∧ k < j ∧ ls[i]? = some s ∧ ls[k]? = some m ∧ ls[j]? = some e ∧
          HasPrefix m "/ISK5" = false ∧ HasPrefix m "!" = false) ∧
    ((¬ ∃ (i j : ℕ) (s e : String), i < j ∧ ls[i]? = some s ∧ ls[j]? = some e ∧
        HasPrefix s "/ISK5" = true ∧ HasPrefix e "!" = true) → frame now ls = none) := by
  have main : ∀ r, frame now ls = some r →
      ∃ pre s mid e post, ls = pre ++ s :: (mid ++ e :: post) ∧
        HasPrefix s "/ISK5" = true ∧ HasPrefix e "!" = true ∧
        (∀ l ∈ mid, HasPrefix l "!" = false) ∧
        parseEntry now (mid.filter (fun l => !HasPrefix l "/ISK5")) = .ok r ∧
        ∃ (i k j : ℕ) (m : String), i < k ∧ k < j ∧ ls[i]? = some s ∧ ls[k]? = some m ∧ ls[j]? = some e ∧
          HasPrefix m "/ISK5" = false ∧ HasPrefix m "!" = false := by
    intro r hr
    obtain ⟨pre, s, mid, e, post, hls, hs, he, hmid, hp⟩ := (loop_some now ls).1 r hr
    refine ⟨pre, s, mid, e, post, hls, hs, he, hmid, hp, ?_⟩
    have hne := parseEntry_ok_ne_nil now _ r hp
    obtain ⟨m, hm⟩ := List.exists_mem_of_ne_nil _ hne
    rw [List.mem_filter] at hm
    obtain ⟨hmem, hnot⟩ := hm
    obtain ⟨m1, m2, hsplit⟩ := List.append_of_mem hmem
    refine ⟨pre.length, (pre ++ s :: m1).length, (pre ++ s :: mid).length, m, ?_, ?_, ?_, ?_,
      ?_, by simpa using hnot, hmid m hmem⟩
    · simp
    · rw [hsplit]
      simp
    · rw [hls]
      exact getElem?_length_append pre s _
    · have : ls = (pre ++ s :: m1) ++ m :: (m2 ++ e :: post) := by
        rw [hls, hsplit]
        simp
      rw [this]
      exact getElem?_length_append _ m _
    · have : ls = (pre ++ s :: mid) ++ e :: post := by
        rw [hls]
        simp
      rw [this]
      exact getElem?_length_append _ e _
  refine ⟨main, ?_⟩
  intro hno
  cases hf : frame now ls with
  | none => rfl
  | some r =>
    obtain ⟨pre, s, mid, e, post, _, hs, he, _, _, i, k, j, m, hik, hkj, hi, _, hj, _, _⟩ :=
      main r hf
    exact absurd ⟨i, j, s, e, by omega, hi, hj, hs, he⟩ hno

/-- Witness of C12: the telegram of the specification is framed, and neither
a sequence without end marker nor one whose end marker comes first emits. -/
theorem frame_only_framed_witness :
    (∃ r, frame 7 ["/ISK5...", "1-0:1.8.1(123.4*kWh)", "!..."] = some r ∧
      ∃ pre s mid e post,
        ["/ISK5...", "1-0:1.8.1(123.4*kWh)", "!..."] = pre ++ s :: (mid ++ e :: post) ∧
        HasPrefix s "/ISK5" = true ∧ HasPrefix e "!" = true ∧
        parseEntry 7 (mid.filter (fun l => !HasPrefix l "/ISK5")) = .ok r) ∧
    frame 7 ["/ISK5...", "1-0:1.8.1(123.4*kWh)"] = none ∧
    frame 7 ["!...", "1-0:1.8.1(123.4*kWh)", "/ISK5..."] = none := by
  refine ⟨?_, ?_, ?_⟩
  · have hr : frame 7 ["/ISK5...", "1-0:1.8.1(123.4*kWh)", "!..."] =
        some ⟨7, 4341751515761869 / 35184372088832, 0, 0⟩ := by decide!
    obtain ⟨pre, s, mid, e, post, hls, hs, he, _, hp, _⟩ :=
      (frame_only_framed 7 ["/ISK5...", "1-0:1.8.1(123.4*kWh)", "!..."]).1 _ hr
    exact ⟨_, hr, pre, s, mid, e, post, hls, hs, he, hp⟩
  · decide
  · decide

/-- C13: at most one entry per cycle, decided by the earliest complete
telegram. For all line sequences `xs` and `ys`, if `frame xs` emits an entry
then `frame (xs ++ ys)` emits the same entry. -/
theorem frame_append_stable (now : ℕ) (xs ys : List String) (r : Entry)
    (h : frame now xs = some r) : frame now (xs ++ ys) = some r :=
  loop_append now xs ys false [] r h

/-- Witness of C13: lines after the first telegram, a second telegram among
them, change nothing. -/
theorem frame_append_stable_witness :
    frame 7 ["/ISK5...", "1-0:1.8.1(2.5*kWh)", "!..."] = some ⟨7, 5 / 2, 0, 0⟩ ∧
    frame 7 (["/ISK5...", "1-0:1.8.1(2.5*kWh)", "!..."] ++
      ["/ISK5...", "1-0:1.8.1(7.5*kWh)", "!..."]) = some ⟨7, 5 / 2, 0, 0⟩ :=
  ⟨by decide!,
   frame_append_stable 7 ["/ISK5...", "1-0:1.8.1(2.5*kWh)", "!..."]
     ["/ISK5...", "1-0:1.8.1(7.5*kWh)", "!..."] ⟨7, 5 / 2, 0, 0⟩ (by decide!)⟩

/-- C14: a second start marker while collecting is a no-op. For all lines
`s1`, `s2` beginning with `/ISK5`, every line `e` beginning with `!`, and all
line lists `xs`, `ys` without marker lines and with `xs ++ ys` non-empty,
`frame ([s1] ++ xs ++ [s2] ++ ys ++ [e])` emits the entry that
`parseEntry (xs ++ ys)` returns. -/
theorem frame_second_start (now : ℕ) (s1 s2 e : String) (xs ys : List String)
    (hs1 : HasPrefix s1 "/ISK5" = true) (hs2 : HasPrefix s2 "/ISK5" = true)
    (he : HasPrefix e "!" = true)
    (hxs : ∀ l ∈ xs, HasPrefix l "/ISK5" = false ∧ HasPrefix l "!" = false)
    (hys : ∀ l ∈ ys, HasPrefix l "/ISK5" = false ∧ HasPrefix l "!" = false)
    (hne : xs ++ ys ≠ []) :
    ∃ r, parseEntry now (xs ++ ys) = .ok r ∧
      frame now ([s1] ++ xs ++ [s2] ++ ys ++ [e]) = some r := by
  refine ⟨_, parseEntry_ok now (xs ++ ys) hne, ?_⟩
  have hl : [s1] ++ xs ++ [s2] ++ ys ++ [e] = s1 :: (xs ++ s2 :: (ys ++ [e])) := by simp
  rw [hl, frame, Read, loop_start now _ _ s1 _ hs1, loop_body now xs _ _ hxs,
    loop_start now _ _ s2 _ hs2, loop_body now ys _ _ hys, loop_end now _ e _ he,
    List.nil_append, parseEntry_ok now (xs ++ ys) hne]

/-- Witness of C14: the line before the second start marker is kept, and the
marker itself is not part of the block. -/
theorem frame_second_start_witness :
    (HasPrefix "/ISK5..." "/ISK5" = true ∧ HasPrefix "/ISK5 again" "/ISK5" = true ∧
      HasPrefix "!..." "!" = true ∧
      (∀ l ∈ ["1-0:1.8.1(2.5*kWh)"], HasPrefix l "/ISK5" = false ∧ HasPrefix l "!" = false) ∧
      (∀ l ∈ ["0-1:24.2.1(9.0*m3)"], HasPrefix l "/ISK5" = false ∧ HasPrefix l "!" = false) ∧
      ["1-0:1.8.1(2.5*kWh)"] ++ ["0-1:24.2.1(9.0*m3)"] ≠ []) ∧
    (∃ r, parseEntry 7 (["1-0:1.8.1(2.5*kWh)"] ++ ["0-1:24.2.1(9.0*m3)"]) = .ok r ∧
      frame 7 (["/ISK5..."] ++ ["1-0:1.8.1(2.5*kWh)"] ++ ["/ISK5 again"] ++
        ["0-1:24.2.1(9.0*m3)"] ++ ["!..."]) = some r) ∧
    frame 7 ["/ISK5...", "1-0:1.8.1(2.5*kWh)", "/ISK5 again", "0-1:24.2.1(9.0*m3)", "!..."] =
      some ⟨7, 5 / 2, 0, 9⟩ :=
  ⟨⟨by decide, by decide, by decide, by decide, by decide, by decide⟩,
   frame_second_start 7 "/ISK5..." "/ISK5 again" "!..." ["1-0:1.8.1(2.5*kWh)"]
     ["0-1:24.2.1(9.0*m3)"] (by decide) (by decide) (by decide) (by decide) (by decide)
     (by decide),
   by decide!⟩

/-- C15: the idle loop ignores everything but a start marker, and every
telegram starts from an empty block. For every line list `pre` in which no
line begins with `/ISK5` and every line list `ls`,
`frame (pre ++ ls) = frame ls`; and in every state the loop reaches from its
initial state, `started = false` implies that `block` is empty. -/
theorem frame_idle_skip (now : ℕ) :
    (∀ pre ls, (∀ l ∈ pre, HasPrefix l "/ISK5" = false) →
      frame now (pre ++ ls) = frame now ls) ∧
    (∀ lines started block, Read.stateAfter now false [] lines = some (started, block) →
      started = false → block = []) :=
  ⟨fun pre ls hpre => loop_idle_skip now [] pre ls hpre,
   fun lines started block h => stateAfter_idle now lines false [] started block (fun _ => rfl) h⟩

/-- Witness of C15: end markers and data lines before the first start marker
are ignored, and after an empty block the loop is idle with an empty block. -/
theorem frame_idle_skip_witness :
    (∀ l ∈ ["!...", "1-0:1.8.1(7.5*kWh)"], HasPrefix l "/ISK5" = false) ∧
    frame 7 (["!...", "1-0:1.8.1(7.5*kWh)"] ++ ["/ISK5...", "1-0:1.8.1(2.5*kWh)", "!..."]) =
      frame 7 ["/ISK5...", "1-0:1.8.1(2.5*kWh)", "!..."] ∧
    Read.stateAfter 7 false [] ["x", "/ISK5...", "!...", "y"] = some (false, []) ∧
    Read.stateAfter 7 false [] ["/ISK5...", "y"] = some (true, ["y"]) :=
  ⟨by decide,
   (frame_idle_skip 7).1 ["!...", "1-0:1.8.1(7.5*kWh)"]
     ["/ISK5...", "1-0:1.8.1(2.5*kWh)", "!..."] (by decide),
   by decide, by decide⟩

/-- C16: from every collector state the program reaches, `Describe` sends
exactly two descriptors, in this order: `energy_electricity_total` with the
single variable label `type`, then `energy_gas_total` with no labels. The
descriptors are cached: on a state with both descriptors set `initDesc`
changes nothing, which holds after the first `Describe` or `Collect`, so a
later `Describe` sends the same two descriptors; `initDesc` is idempotent. -/
theorem Describe_descriptors (dr : dataReader) (hdr : Reachable dr) :
    (Describe dr).2 =
      [some ⟨"energy_electricity_total", "Electricity usage", ["type"]⟩,
       some ⟨"energy_gas_total", "Gas usage", []⟩] ∧
    initDesc (Describe dr).1 = (Describe dr).1 ∧
    Describe (Describe dr).1 = Describe dr ∧
    (∀ now lines dr2 ms, Collect dr now lines = some (dr2, ms) →
      initDesc dr2 = dr2 ∧ Describe dr2 = Describe dr) ∧
    (∀ d : dataReader, d.electricityDesc ≠ none → d.gasDesc ≠ none → initDesc d = d) ∧
    (∀ d : dataReader, initDesc (initDesc d) = initDesc d) := by
  have hcase := Reachable_cases dr hdr
  refine ⟨?_, ?_, ?_, ?_, initDesc_fixed, initDesc_idem⟩
  · rcases hcase with h | h <;> subst h <;> rfl
  · rcases hcase with h | h <;> subst h <;> rfl
  · rcases hcase with h | h <;> subst h <;> rfl
  · intro now lines dr2 ms hc
    rw [Collect_of_entry dr now lines hdr] at hc
    simp only [Option.some.injEq, Prod.mk.injEq] at hc
    rw [← hc.1]
    rcases hcase with h | h <;> subst h <;> exact ⟨rfl, rfl⟩

/-- Witness of C16 at the collector built in `main`. -/
theorem Describe_descriptors_witness :
    Reachable newDataReader ∧
    (Describe newDataReader).2 =
      [some ⟨"energy_electricity_total", "Electricity usage", ["type"]⟩,
       some ⟨"energy_gas_total", "Gas usage", []⟩] ∧
    initDesc (Describe newDataReader).1 = (Describe newDataReader).1 ∧
    Describe (Describe newDataReader).1 = Describe newDataReader :=
  ⟨Reachable.init, (Describe_descriptors newDataReader Reachable.init).1,
   (Describe_descriptors newDataReader Reachable.init).2.1,
   (Describe_descriptors newDataReader Reachable.init).2.2.1⟩

/-- C17, the failing run: on a stream of 104 lines whose first three are a
telegram, there is a schedule of the two goroutines after which an entry has
been sent, the second goroutine has set `stopped` and returned, the first
goroutine stands at `lines <- line` with all 100 slots of the channel taken,
no goroutine can move any more, and `s.Close()` has not been called. -/
theorem Session.handle_not_released :
    (Session.run 7 (Session.init backlogInput) backlogSchedule).map
      (fun σ => (σ.pump, σ.framer, σ.stopped, σ.queue.length)) =
      some (.send "0-0:96.13.0()", .done, true, 100) ∧
    (Session.run 7 (Session.init backlogInput) backlogSchedule).map
      (fun σ => (σ.entries, σ.closes)) = some ([⟨7, 5 / 2, 0, 0⟩], 0) ∧
    (Session.run 7 (Session.init backlogInput) backlogSchedule).map
      (fun σ => (Session.step 7 σ true, Session.step 7 σ false)) = some (none, none) := by
  refine ⟨?_, ?_, ?_⟩ <;> decide!

/-- C18: last matching line wins, even when it is unparseable. For every
non-empty block and each row `(P, field)` of the prefix table, if `l` is the
last line of the block beginning with `P`, the field of `parseEntry block`
equals `readValue l`. -/
theorem parseEntry_last_wins (now : ℕ) (block : List String) (hne : block ≠ []) :
    ∃ r, parseEntry now block = .ok r ∧ ∀ pf ∈ prefixTable, ∀ a l b,
      block = a ++ l :: b → HasPrefix l pf.1 = true →
      (∀ x ∈ b, HasPrefix x pf.1 = false) → pf.2 r = readValue l := by
  refine ⟨_, parseEntry_ok now block hne, ?_⟩
  intro pf hpf a l b hblock hl hb
  have hts : ∀ e : Entry, pf.2 { e with Timestamp := now } = pf.2 e := by
    intro e
    simp only [prefixTable, List.mem_cons, List.mem_singleton, List.not_mem_nil,
      or_false] at hpf
    rcases hpf with h | h | h <;> subst h <;> rfl
  have hfold := foldl_field pf.2 pf.1 (prefixTable_step pf hpf) block ⟨0, 0, 0, 0⟩
  rw [hts, hfold]
  have hfb : b.filter (fun l => HasPrefix l pf.1) = [] := by
    rw [List.filter_eq_nil_iff]
    intro x hx
    simp [hb x hx]
  have hf : block.filter (fun l => HasPrefix l pf.1) =
      a.filter (fun l => HasPrefix l pf.1) ++ [l] := by
    rw [hblock, List.filter_append]
    have h2 : (l :: b).filter (fun l => HasPrefix l pf.1) =
        l :: b.filter (fun l => HasPrefix l pf.1) := List.filter_cons_of_pos hl
    rw [h2, hfb]
  rw [hf, List.getLast?_append]
  rfl

/-- Witness of C18: a later low-tariff line without a value resets the field
to 0 although the earlier line carried 2.5. -/
theorem parseEntry_last_wins_witness :
    ["1-0:1.8.1(2.5*kWh)", "1-0:1.8.1(abc)"] ≠ [] ∧
    (∃ r, parseEntry 7 ["1-0:1.8.1(2.5*kWh)", "1-0:1.8.1(abc)"] = .ok r ∧
      ∀ pf ∈ prefixTable, ∀ a l b,
        ["1-0:1.8.1(2.5*kWh)", "1-0:1.8.1(abc)"] = a ++ l :: b → HasPrefix l pf.1 = true →
        (∀ x ∈ b, HasPrefix x pf.1 = false) → pf.2 r = readValue l) ∧
    readValue "1-0:1.8.1(2.5*kWh)" = 5 / 2 ∧ readValue "1-0:1.8.1(abc)" = 0 ∧
    (parseEntry 7 ["1-0:1.8.1(2.5*kWh)", "1-0:1.8.1(abc)"]).toOption = some ⟨7, 0, 0, 0⟩ ∧
    (parseEntry 7 ["1-0:1.8.1(abc)", "1-0:1.8.1(2.5*kWh)"]).toOption = some ⟨7, 5 / 2, 0, 0⟩ :=
  ⟨by decide,
   parseEntry_last_wins 7 ["1-0:1.8.1(2.5*kWh)", "1-0:1.8.1(abc)"] (by decide),
   by decide!, by decide!, by decide!, by decide!⟩

/-- C19: `readValue` never returns a negative value: the captured token
consists of digits and dots only, and every failure path returns 0. Hence
every field of every entry from `parseEntry`, and every value `Collect`
sends, is non-negative. -/
theorem readValue_never_negative :
    (∀ line, 0 ≤ readValue line) ∧
    (∀ line, ∀ c ∈ (capturedToken line).data, digitDot c = true) ∧
    (∀ now lines r, parseEntry now lines = .ok r →
      0 ≤ r.ElectricityLow ∧ 0 ≤ r.ElectricityNormal ∧ 0 ≤ r.Gas) ∧
    (∀ dr now lines dr2 ms, Collect dr now lines = some (dr2, ms) →
      ∀ m ∈ ms, 0 ≤ m.value) := by
  refine ⟨readValue_nonneg, capture_digitDot, fun now lines r h => parseEntry_nonneg now lines r h,
    ?_⟩
  intro dr now lines dr2 ms hc m hm
  have hentry : ((Read now lines).getD ⟨0, 0, 0, 0⟩).nonneg := by
    cases hr : Read now lines with
    | none => exact ⟨le_refl 0, le_refl 0, le_refl 0⟩
    | some r => exact Read_nonneg now lines r hr
  obtain ⟨h1, h2, h3⟩ := hentry
  simp only [Collect] at hc
  split at hc
  · exact absurd hc (by simp)
  · rename_i m1 hm1
    split at hc
    · exact absurd hc (by simp)
    · rename_i m2 hm2
      split at hc
      · exact absurd hc (by simp)
      · rename_i m3 hm3
        simp only [Option.some.injEq, Prod.mk.injEq] at hc
        rw [← hc.2] at hm
        simp only [List.mem_cons, List.mem_singleton, List.not_mem_nil, or_false] at hm
        rcases hm with h | h | h <;> subst h
        · rw [MustNewConstMetric_value _ _ _ _ _ hm1]; exact h1
        · rw [MustNewConstMetric_value _ _ _ _ _ hm2]; exact h2
        · rw [MustNewConstMetric_value _ _ _ _ _ hm3]; exact h3

end Dsmr
